import Mathlib

/-!
Verification development for the zohran-ghs-dashboard geospatial ETL
scripts.  Each namespace below is a shallow embedding of one script:

* `ZGhs.StormJoin` — `src/notebooks/storm_water_ranked_join.py`: buffer
  school points, left-join to stormwater polygons, keep the lowest-risk
  match per point, and fill the default label/value into every null
  cell of the three joined columns (unmatched points and null text
  cells of matched candidates alike).
* `ZGhs.NearestJoin` — the `gpd.sjoin_nearest` calls of
  `src/notebooks/hurricaneEvac_HeatIndex_distEvacCenters_distCoolingCenters.py`.
* `ZGhs.RasterSample` — `sample_raster_at_points` of
  `src/notebooks/andre_working/process_air_pollution_and_join.py`.
* `ZGhs.GdbWriter` — the field sanitising and row writing logic of
  `write_output_gdb` in the same file.
* `ZGhs.SnapPoints` — `src/notebooks/andre_working/snap_points_by_BuildingCode.py`.

Geometry, projection and file IO are black boxes in the scripts (library
calls); they are abstracted here as type parameters and function
parameters.  Library calls whose behaviour the claims depend on
(`pd.to_numeric`, `sort_values` + `drop_duplicates`, `sjoin_nearest`,
`rasterio sample`) are embedded according to their documented semantics,
which each doc comment records.
-/

namespace ZGhs

/-- A scalar attribute value as held in a pandas cell: an integer, a
finite decimal number (`vDec m e` denotes `m / 10 ^ e`, an exact stand-in
for the numeric literals the scripts manipulate), a string, or a missing
value (`None`/`NaN`, what `pd.isna` detects). -/
inductive Value where
  | vInt : Int → Value
  | vDec : Int → Nat → Value
  | vStr : List Char → Value
  | vNone : Value
deriving DecidableEq, Repr

/-- Python `pd.isna`: only the missing value is NA here. -/
def Value.isNA : Value → Bool
  | .vNone => true
  | _ => false

/-- Decimal digit test used by the string-to-number parsers. -/
def isDigitCh (c : Char) : Bool := decide ('0' ≤ c ∧ c ≤ '9')

/-- Numeric value of a decimal digit character. -/
def digitVal (c : Char) : Nat := c.toNat - 48

/-- Whitespace stripped by Python number parsing (`int(" 3 ")` works). -/
def isSpaceCh (c : Char) : Bool := decide (c = ' ' ∨ c = '\t' ∨ c = '\n' ∨ c = '\r')

/-- Drop leading and trailing whitespace, as Python `str.strip`. -/
def stripChars (cs : List Char) : List Char :=
  ((cs.dropWhile isSpaceCh).reverse.dropWhile isSpaceCh).reverse

/-- Parse a non-empty all-digit string into a natural number. -/
def parseDigits (cs : List Char) : Option Nat :=
  if cs ≠ [] ∧ cs.all isDigitCh then
    some (cs.foldl (fun a c => 10 * a + digitVal c) 0)
  else none

/-- Parse an optional sign followed by digits (Python `int(str)` body). -/
def parseSigned (cs : List Char) : Option Int :=
  match cs with
  | '-' :: rest => (parseDigits rest).map (fun n => -(n : Int))
  | '+' :: rest => (parseDigits rest).map (fun n => (n : Int))
  | _ => (parseDigits cs).map (fun n => (n : Int))

/-- Python `int` applied to a string: strip whitespace, then an optional
sign and digits; anything else (including `"2.5"`) raises, modelled as
`none`. -/
def pyParseInt (cs : List Char) : Option Int := parseSigned (stripChars cs)

/-- Parse an unsigned decimal magnitude `digits [ . digits ]` into a
scaled mantissa `(m, e)` denoting `m / 10 ^ e`.  Accepts `"1."` and
`".5"` as Python `float` does; rejects empty and malformed strings. -/
def parseDecMag (cs : List Char) : Option (Nat × Nat) :=
  match cs.span (fun c => c ≠ '.') with
  | (intPart, []) => (parseDigits intPart).map (fun n => (n, 0))
  | (intPart, '.' :: frac) =>
    if intPart.all isDigitCh ∧ frac.all isDigitCh ∧ (intPart ≠ [] ∨ frac ≠ []) then
      some
        ((intPart.foldl (fun a c => 10 * a + digitVal c) 0) * 10 ^ frac.length +
          frac.foldl (fun a c => 10 * a + digitVal c) 0,
          frac.length)
    else none
  | (_, _ :: _) => none

/-- Python `float` applied to a string: strip, optional sign, decimal
magnitude; failure is `none`. -/
def pyParseDec (cs : List Char) : Option (Int × Nat) :=
  match stripChars cs with
  | '-' :: rest => (parseDecMag rest).map (fun p => (-(p.1 : Int), p.2))
  | '+' :: rest => (parseDecMag rest).map (fun p => ((p.1 : Int), p.2))
  | rest => (parseDecMag rest).map (fun p => ((p.1 : Int), p.2))

/-- Semantics of `pd.to_numeric(col, errors="coerce")` on one cell:
numbers pass through, numeric strings parse, everything else (missing
values, non-numeric strings) coerces to NaN, modelled as `none`. -/
def pyToNumeric : Value → Option (Int × Nat)
  | .vInt n => some (n, 0)
  | .vDec m e => some (m, e)
  | .vStr s => pyParseDec s
  | .vNone => none

/-- Truncation toward zero of a scaled decimal, the effect of
`astype(int)` and of Python `int(float)`. -/
def decTrunc (m : Int) (e : Nat) : Int := Int.tdiv m (10 ^ e)

/-- Python `int(val)` on a cell value: integers pass, decimals truncate
toward zero, strings must parse as an integer literal; failure raises,
modelled as `none`. -/
def pyIntCast : Value → Option Int
  | .vInt n => some n
  | .vDec m e => some (decTrunc m e)
  | .vStr s => pyParseInt s
  | .vNone => none

/-- Python `float(val)` on a cell value; failure raises, modelled as
`none`. -/
def pyFloatCast : Value → Option (Int × Nat)
  | .vInt n => some (n, 0)
  | .vDec m e => some (m, e)
  | .vStr s => pyParseDec s
  | .vNone => none

/-- Python `str(val)` on a cell value: total, never raises. -/
def pyStrCast : Value → List Char
  | .vStr s => s
  | .vInt n => (toString n).data
  | .vDec m e => (toString m).data ++ 'e' :: (toString e).data
  | .vNone => "None".data

namespace StormJoin

/-- One school record as read from the input GeoJSON
(`storm_water_ranked_join.py`): its attribute payload `attrs` (all
original columns, minus any pre-existing copy of the three enrichment
fields, which lines 79–82 drop before the join) and an optional
geometry; `none` models the null or empty geometries removed by the
filters at lines 72–73. -/
structure School (G A : Type) where
  attrs : A
  geom : Option G
deriving DecidableEq, Repr

/-- One stormwater polygon record: the three carried-over fields
(`Flood_Scenario`, `Flood_Category`, `Stormwater_Flood_Risk`) and an
optional geometry (lines 103–110).  The text cells are nullable
(`none` models a null/NaN cell of the GeoJSON attribute table — only
the geometry is filtered, lines 109–110, so such rows flow through the
join), as is the risk via `Value.vNone`. -/
structure Storm (G : Type) where
  scenario : Option (List Char)
  category : Option (List Char)
  risk : Value
  geom : Option G
deriving DecidableEq, Repr

/-- Default text attached to points with no overlap (line 43). -/
def noRiskLabel : List Char := "No forecasted risk of stormwater flooding".data

/-- Default risk integer for points with no overlap (line 44). -/
def noRiskValue : Int := 0

variable {G A : Type}

/-- Schools kept after the null/empty geometry filters (lines 72–73). -/
def filteredSchools (schools : List (School G A)) : List (School G A) :=
  schools.filter (fun s => s.geom.isSome)

/-- Filtered schools tagged with their `__pt_id`, which is the reset
positional index (lines 75–76), so ids are exactly the positions. -/
def ptRows (schools : List (School G A)) : List (Nat × School G A) :=
  (filteredSchools schools).enum

/-- The buffer layer (lines 88–94): one buffer polygon per point, kept
only when non-null and non-empty.  `buffer` abstracts the projection to
EPSG:2263 composed with `geometry.buffer(300.0)`; it returns `none` when
the result is null/empty. -/
def buffersOf (buffer : G → Option G) (schools : List (School G A)) :
    List (Nat × G) :=
  (ptRows schools).filterMap (fun p =>
    match p.2.geom with
    | some g => (buffer g).map (fun b => (p.1, b))
    | none => none)

/-- Stormwater rows kept for the join: the required fields of every row
with a non-null, non-empty geometry (lines 108–110). -/
def stormKeep (storms : List (Storm G)) :
    List (Option (List Char) × Option (List Char) × Value × G) :=
  storms.filterMap (fun st =>
    st.geom.map (fun g => (st.scenario, st.category, st.risk, g)))

/-- The left spatial join of buffers to stormwater polygons
(`gpd.sjoin(..., how="left", predicate="intersects")`, lines 117–122):
one row per intersecting (buffer, polygon) pair, plus one row with
all-null right-hand attributes for a buffer with no match. -/
def joinedRows (its : G → G → Bool) (buffer : G → Option G)
    (schools : List (School G A)) (storms : List (Storm G)) :
    List (Nat × Option (Option (List Char) × Option (List Char) × Value)) :=
  (buffersOf buffer schools).flatMap (fun bp =>
    let ms := (stormKeep storms).filter (fun t => its bp.2 t.2.2.2)
    if ms.isEmpty then [(bp.1, none)]
    else ms.map (fun t => (bp.1, some (t.1, t.2.1, t.2.2.1))))

/-- A join candidate surviving the risk clean-up (lines 126–135): a
matched row whose risk value parses as a number, with the risk coerced
to an integer by `astype(int)`.  Its text cells stay nullable — the
clean-up only looks at the risk column. -/
structure Cand where
  pt : Nat
  scenario : Option (List Char)
  category : Option (List Char)
  risk : Int
deriving DecidableEq, Repr

/-- The `ranked` table (lines 126–135): drop unmatched rows and rows
with a missing risk, coerce risk with `pd.to_numeric(errors="coerce")`,
drop rows that failed to parse, cast to integer. -/
def ranked (its : G → G → Bool) (buffer : G → Option G)
    (schools : List (School G A)) (storms : List (Storm G)) : List Cand :=
  (joinedRows its buffer schools storms).filterMap (fun r =>
    r.2.bind (fun t =>
      (pyToNumeric t.2.2).map (fun d => ⟨r.1, t.1, t.2.1, decTrunc d.1 d.2⟩)))

/-- The sort key of `sort_values(["__pt_id", risk], ascending=True)`:
lexicographic order on (point id, risk). -/
def candLe (c d : Cand) : Prop := c.pt < d.pt ∨ (c.pt = d.pt ∧ c.risk ≤ d.risk)

instance : DecidableRel candLe := fun c d => by
  unfold candLe; infer_instance

instance : IsTotal Cand candLe := by
  constructor
  intro a b
  rcases Nat.lt_trichotomy a.pt b.pt with h | h | h
  · exact Or.inl (Or.inl h)
  · rcases Int.le_total a.risk b.risk with hr | hr
    · exact Or.inl (Or.inr ⟨h, hr⟩)
    · exact Or.inr (Or.inr ⟨h.symm, hr⟩)
  · exact Or.inr (Or.inl h)

instance : IsTrans Cand candLe := by
  constructor
  intro a b c hab hbc
  rcases hab with h1 | ⟨h1, h1r⟩ <;> rcases hbc with h2 | ⟨h2, h2r⟩
  · exact Or.inl (Nat.lt_trans h1 h2)
  · exact Or.inl (h2 ▸ h1)
  · exact Or.inl (h1 ▸ h2)
  · exact Or.inr ⟨h1.trans h2, le_trans h1r h2r⟩

/-- The effect of `drop_duplicates(subset=["__pt_id"], keep="first")`:
scan the table in order and keep only the first row of each point id. -/
def dedupPtGo (seen : List Nat) : List Cand → List Cand
  | [] => []
  | c :: rest =>
    if c.pt ∈ seen then dedupPtGo seen rest
    else c :: dedupPtGo (c.pt :: seen) rest

/-- Rows kept by `drop_duplicates` starting from an empty seen set. -/
def dedupPt (l : List Cand) : List Cand := dedupPtGo [] l

/-- The `best` table (lines 137–141): sort by (point id, risk), then
keep the first row per point id.  `sort_values` on several columns is a
stable lexicographic sort. -/
def best (its : G → G → Bool) (buffer : G → Option G)
    (schools : List (School G A)) (storms : List (Storm G)) : List Cand :=
  dedupPt (List.insertionSort candLe (ranked its buffer schools storms))

/-- One output feature (lines 145–162): the original attributes and
geometry of a filtered school point plus the three resolved fields. -/
structure OutPoint (G A : Type) where
  attrs : A
  geom : Option G
  scenario : List Char
  category : List Char
  risk : Int
deriving DecidableEq, Repr

/-- The final merge and default fill (lines 145–160): left-merge `best`
back onto the points by `__pt_id` (unique on both sides), then
`fillna` the three columns.  `fillna` fills every NA cell of a column:
for an unmatched point all three cells are NA and become the defaults,
and for a matched point any null text cell of its best candidate is
likewise replaced by the default label (the risk of a matched row is
a number, so `fillna(0).astype(int)` leaves it unchanged). -/
def outPoints (its : G → G → Bool) (buffer : G → Option G)
    (schools : List (School G A)) (storms : List (Storm G)) :
    List (OutPoint G A) :=
  let b := best its buffer schools storms
  (ptRows schools).map (fun p =>
    match b.find? (fun c => c.pt = p.1) with
    | some c =>
      ⟨p.2.attrs, p.2.geom, (c.scenario).getD noRiskLabel,
        (c.category).getD noRiskLabel, c.risk⟩
    | none => ⟨p.2.attrs, p.2.geom, noRiskLabel, noRiskLabel, noRiskValue⟩)

/-- The join candidates of point `i` that survive the numeric clean-up:
the rows of `ranked` carrying id `i`. -/
def candsFor (its : G → G → Bool) (buffer : G → Option G)
    (schools : List (School G A)) (storms : List (Storm G)) (i : Nat) :
    List Cand :=
  (ranked its buffer schools storms).filter (fun c => c.pt = i)

/-- The raw join candidates of point `i`: every matched (non-null) right
side the spatial join produced for its buffer, before any risk
clean-up. -/
def rawCandsFor (its : G → G → Bool) (buffer : G → Option G)
    (schools : List (School G A)) (storms : List (Storm G)) (i : Nat) :
    List (Option (List Char) × Option (List Char) × Value) :=
  (joinedRows its buffer schools storms).filterMap (fun r =>
    if r.1 = i then r.2 else none)

/-- Example geometry world for concrete runs: geometries are numeric
ids, buffering keeps the id, and `exIts` lists which buffer id meets
which polygon id. -/
def exIts : Nat → Nat → Bool := fun b g =>
  decide ((b = 0 ∧ (g = 100 ∨ g = 101 ∨ g = 102)) ∨ (b = 2 ∧ g = 103))

/-- Example buffering: every point buffers to a valid polygon. -/
def exBuf : Nat → Option Nat := fun g => some g

/-- Example schools: payloads 10–13; the third has a null geometry and
is removed by the filters, so point ids are 0, 1, 2. -/
def exSchools : List (School Nat Nat) :=
  [⟨10, some 0⟩, ⟨11, some 1⟩, ⟨13, none⟩, ⟨12, some 2⟩]

/-- Example stormwater polygons: three matches for point 0 with risks
3, 1, 4; one non-numeric-risk match for point 2; one null geometry. -/
def exStorms : List (Storm Nat) :=
  [⟨some "Deep".data, some "High".data, .vInt 3, some 100⟩,
   ⟨some "Shallow".data, some "Med".data, .vInt 1, some 101⟩,
   ⟨some "Extreme".data, some "Low".data, .vInt 4, some 102⟩,
   ⟨some "X".data, some "Y".data, .vStr "n/a".data, some 103⟩,
   ⟨some "Z".data, some "W".data, .vInt 2, none⟩]

/-- The resolved record the pipeline produces for example point 0. -/
def exOut0 : OutPoint Nat Nat := ⟨10, some 0, "Shallow".data, "Med".data, 1⟩

/-- Claim C1 exactly as stated, over the integer-id geometry world: for
a point with at least one numeric-ranked join candidate, the resolved
scenario text, category text and risk number are all the corresponding
cells of one single minimum-risk candidate — never mixed from
different candidates. -/
def resolutionAtomicityClaim : Prop :=
  ∀ (its : Nat → Nat → Bool) (buffer : Nat → Option Nat)
    (schools : List (School Nat Nat)) (storms : List (Storm Nat))
    (i : Nat) (r : OutPoint Nat Nat),
    (outPoints its buffer schools storms)[i]? = some r →
    candsFor its buffer schools storms i ≠ [] →
    ∃ c ∈ candsFor its buffer schools storms i,
      c.scenario = some r.scenario ∧ c.category = some r.category ∧
      c.risk = r.risk ∧
      ∀ d ∈ candsFor its buffer schools storms i, c.risk ≤ d.risk

/-- Intersection table of the null-text counterexample run: the single
school buffer meets the single storm polygon. -/
def exItsN : Nat → Nat → Bool := fun b g => decide (b = 0 ∧ g = 100)

/-- The one school of the null-text counterexample run. -/
def exSchoolsN : List (School Nat Nat) := [⟨10, some 0⟩]

/-- The one storm polygon of the null-text counterexample run: its
`Flood_Scenario` cell is null while its category is "X" and its risk
is the number 2. -/
def exStormsN : List (Storm Nat) :=
  [⟨none, some "X".data, .vInt 2, some 100⟩]

end StormJoin

namespace NearestJoin

/-- A planar point of the projected CRS.  Integer coordinates and the
squared Euclidean distance stand in for the geometry engine's
floating-point distance: only the ordering of distances matters to the
join. -/
abbrev Pt := Int × Int

/-- Squared Euclidean distance between two points. -/
def sqDist (p q : Pt) : Int := (p.1 - q.1) ^ 2 + (p.2 - q.2) ^ 2

/-- Distance from a subject point to its nearest reference point
(`none` for an empty reference layer). -/
def minDist (s : Pt) (refs : List Pt) : Option Int :=
  (refs.map (fun q => sqDist s q)).min?

/-- The output rows one subject feature contributes to
`gpd.sjoin_nearest(..., how="left", distance_col=...)`: per the GeoPandas
documentation, the subject is paired with every reference attaining the
minimum distance — "results will include multiple output records for a
single input record where there are multiple equidistant nearest ...
neighbors" — and a subject facing an empty reference layer keeps one row
with a null match (`how="left"`). -/
def subRows (refs : List Pt) (p : Nat × Pt) : List (Nat × Option (Nat × Int)) :=
  match minDist p.2 refs with
  | none => [(p.1, none)]
  | some m =>
    (refs.enum.filter (fun q => sqDist p.2 q.2 = m)).map
      (fun q => (p.1, some (q.1, sqDist p.2 q.2)))

/-- The full nearest-join result table, subjects in order (the embedded
`schools_nearest_evac` / `schools_nearest_cool` computations, lines
238–253 and 268–283 of the hurricane/heat script). -/
def sjoinNearestRows (subs refs : List Pt) : List (Nat × Option (Nat × Int)) :=
  subs.enum.flatMap (subRows refs)

/-- The rows of the join that belong to subject feature `i`. -/
def rowsFor (subs refs : List Pt) (i : Nat) : List (Nat × Option (Nat × Int)) :=
  (sjoinNearestRows subs refs).filter (fun r => r.1 = i)

/-- Claim C4 exactly as stated: the nearest join always returns exactly
one pair per subject feature, never zero and never more than one, even
when two reference features are equidistant. -/
def nearestExactlyOneClaim : Prop :=
  ∀ (subs refs : List Pt), ∀ i < subs.length, (rowsFor subs refs i).length = 1

/-- Concrete inputs exhibiting an equidistant tie: the subject at the
origin is at squared distance 1 from both reference points. -/
def exSubs : List Pt := [(0, 0)]

/-- The two equidistant reference points. -/
def exRefs : List Pt := [(1, 0), (-1, 0)]

end NearestJoin

namespace RasterSample

/-- A single-band raster as the sampler sees one: a CRS tag, an affine
grid (origin `x0, y0`, pixel sizes `px, py`, typically `py < 0`), the
band data indexed by (row, column), and the optionally declared nodata
value.  Integer cell values and coordinates stand in exactly for the
floating-point originals. -/
structure Raster where
  crs : Nat
  x0 : Int
  y0 : Int
  px : Int
  py : Int
  width : Nat
  height : Nat
  band : Nat → Nat → Int
  nodata : Option Int

/-- The (row, column) of the pixel containing a coordinate, as
`rasterio DatasetReader.index` computes it: floor division of the offset
from the origin by the pixel size. -/
def rasterIndex (r : Raster) (x y : Int) : Int × Int :=
  ((y - r.y0).fdiv r.py, (x - r.x0).fdiv r.px)

/-- Whether a coordinate falls inside the raster extent: its pixel row
and column are within the grid. -/
def inExtent (r : Raster) (x y : Int) : Prop :=
  0 ≤ (rasterIndex r x y).1 ∧ (rasterIndex r x y).1 < (r.height : Int) ∧
    0 ≤ (rasterIndex r x y).2 ∧ (rasterIndex r x y).2 < (r.width : Int)

instance (r : Raster) (x y : Int) : Decidable (inExtent r x y) := by
  unfold inExtent
  infer_instance

/-- The band value at the pixel containing a coordinate. -/
def pixelVal (r : Raster) (x y : Int) : Int :=
  r.band (rasterIndex r x y).1.toNat (rasterIndex r x y).2.toNat

/-- One yield of `rasterio`'s `sample_gen`: the band value of the 1×1
window at the containing pixel when the row/column are in range, and
otherwise the fill array built from `dataset.nodata or 0` — the nodata
value when one is declared, else 0. -/
def sampleGenOne (r : Raster) (x y : Int) : Int :=
  if inExtent r x y then pixelVal r x y else r.nodata.getD 0

/-- The per-point body of `sample_raster_at_points` (lines 183–191):
values equal to the declared nodata become the missing sentinel `none`;
everything else is returned as a number. -/
def samplePoint (r : Raster) (p : Int × Int) : Option Int :=
  match r.nodata with
  | some nd => if sampleGenOne r p.1 p.2 = nd then none else some (sampleGenOne r p.1 p.2)
  | none => some (sampleGenOne r p.1 p.2)

/-- The coordinates actually sampled (lines 167–176): the points are
reprojected into the raster CRS when the CRSs differ, else used as-is. -/
def projPoints (r : Raster) (reproject : Int × Int → Int × Int) (ptsCrs : Nat)
    (pts : List (Int × Int)) : List (Int × Int) :=
  if ptsCrs ≠ r.crs then pts.map reproject else pts

/-- The embedded `sample_raster_at_points` (lines 160–193): one sampled
value per input point.  `reproject` abstracts `to_crs(src.crs)`. -/
def sample_raster_at_points (r : Raster) (reproject : Int × Int → Int × Int)
    (ptsCrs : Nat) (pts : List (Int × Int)) : List (Option Int) :=
  (projPoints r reproject ptsCrs pts).map (samplePoint r)

/-- Claim C5 exactly as stated: one value per point, and the value is
the missing sentinel precisely when the sampled pixel equals the
declared nodata value or the point falls outside the raster extent. -/
def samplerClaim : Prop :=
  ∀ (r : Raster) (reproject : Int × Int → Int × Int) (ptsCrs : Nat)
    (pts : List (Int × Int)),
    (sample_raster_at_points r reproject ptsCrs pts).length = pts.length ∧
    ∀ (i : Nat) (p : Int × Int), (projPoints r reproject ptsCrs pts)[i]? = some p →
      ((sample_raster_at_points r reproject ptsCrs pts)[i]? = some none ↔
        (r.nodata = some (pixelVal r p.1 p.2) ∧ inExtent r p.1 p.2) ∨
          ¬ inExtent r p.1 p.2)

/-- A one-pixel raster with no declared nodata value. -/
def exRaster : Raster := ⟨0, 0, 0, 1, -1, 1, 1, fun _ _ => 5, none⟩

/-- A raster with a declared nodata value 99, band value `10*row+col`. -/
def exRaster2 : Raster := ⟨7, 0, 10, 1, -1, 4, 3, fun i j => (10 * i + j : Int), some 99⟩

/-- The example reprojection of the witness run. -/
def exReproj : Int × Int → Int × Int := fun p => (p.1 - 1, p.2 + 1)

end RasterSample

namespace GdbWriter

/-- Field names as Python strings (character lists). -/
abbrev FieldName := List Char

/-- Case folding of the case-insensitive bookkeeping (`.lower()`). -/
def lowerName (c : FieldName) : FieldName := c.map Char.toLower

/-- The reserved row-id name `fid` (line 214). -/
def fidName : FieldName := "fid".data

/-- The replacement name for a `fid` column (line 216). -/
def srcFidName : FieldName := "src_fid".data

/-- The reserved row-id name `objectid` (line 219). -/
def objectidName : FieldName := "objectid".data

/-- The replacement name for an `OBJECTID` column (line 221). -/
def srcObjectidName : FieldName := "src_objectid".data

/-- One reserved-name rename (lines 211–221): `lower_to_orig` keeps,
per lowercase name, the last column bearing it; when some column
lowercases to `reserved`, every column carrying that exact name is
renamed to `target` by `DataFrame.rename`. -/
def renameOne (reserved target : FieldName) (cols : List FieldName) :
    List FieldName :=
  match (cols.filter (fun c => lowerName c = reserved)).getLast? with
  | none => cols
  | some orig => cols.map (fun c => if c = orig then target else c)

/-- Both reserved-name renames, `fid` first and then `OBJECTID`,
exactly as the source performs them. -/
def renameReserved (cols : List FieldName) : List FieldName :=
  renameOne objectidName srcObjectidName (renameOne fidName srcFidName cols)

/-- The candidate name tried by the truncation loop: Python
`base[: max(0, 64 - len(suf))] + suf` with `suf = f"_{i}"` (natural
subtraction models the `max(0, ·)`). -/
def candName (base : FieldName) (i : Nat) : FieldName :=
  base.take (64 - ('_' :: Nat.toDigits 10 i).length) ++ ('_' :: Nat.toDigits 10 i)

/-- The `while new.lower() in seen` retry loop (lines 232–235), with
explicit fuel; `sanitizeOne` passes `seen.length + 2` rounds, proven
sufficient for the workloads considered below, so the loop behaves as
the unbounded source loop there. -/
def dedupLoop (seen : List FieldName) (base : FieldName) :
    Nat → Nat → FieldName → FieldName
  | 0, _, new => new
  | fuel + 1, i, new =>
    if lowerName new ∈ seen then dedupLoop seen base fuel (i + 1) (candName base i)
    else new

/-- The sanitiser pass for one column (lines 229–236): truncate to 64
characters, then retry `_1`, `_2`, … until the lowercased name is not
among the already used ones. -/
def sanitizeOne (seen : List FieldName) (col : FieldName) : FieldName :=
  dedupLoop seen (col.take 64) (seen.length + 2) 1 (col.take 64)

/-- The sanitiser over all attribute columns, threading the seen set of
lowercased output names exactly as the source loop does. -/
def sanitizeGo (seen : List FieldName) : List FieldName → List FieldName
  | [] => []
  | col :: rest =>
    sanitizeOne seen col ::
      sanitizeGo (lowerName (sanitizeOne seen col) :: seen) rest

/-- The sanitised output field names, in column order. -/
def sanitizeCols (cols : List FieldName) : List FieldName := sanitizeGo [] cols

/-- The OGR field types the writer creates (lines 297–306). -/
inductive OgrType where
  | int64 : OgrType
  | real : OgrType
  | text : OgrType
deriving DecidableEq, Repr

/-- The raising Python cast of the write loop (lines 338–345): the cell
value is forced to the field type with `int`, `float` or `str`; `str`
never fails. -/
def castValue (t : OgrType) (v : Value) : Except Unit Value :=
  match t with
  | .int64 =>
    match pyIntCast v with
    | some n => .ok (.vInt n)
    | none => .error ()
  | .real =>
    match pyFloatCast v with
    | some d => .ok (.vDec d.1 d.2)
    | none => .error ()
  | .text => .ok (.vStr (pyStrCast v))

/-- One written cell (lines 322–350): NA values are left null
(`continue`), a failing cast is caught and the cell left null
(`except: continue`), and a successful cast is stored. -/
def writeCell (t : OgrType) (v : Value) : Option Value :=
  if v.isNA then none
  else
    match castValue t v with
    | .ok w => some w
    | .error _ => none

/-- One written row: each cell is processed independently of the
others. -/
def writeRow (types : List OgrType) (row : List Value) : List (Option Value) :=
  List.zipWith writeCell types row

/-- The whole attribute write (lines 313–360): one output record per
input row. -/
def writeTable (types : List OgrType) (rows : List (List Value)) :
    List (List (Option Value)) :=
  rows.map (writeRow types)

/-- Whether a stored value inhabits the field's declared OGR type. -/
def typeOk : OgrType → Value → Prop
  | .int64, .vInt _ => True
  | .real, .vDec _ _ => True
  | .text, .vStr _ => True
  | _, _ => False

/-- A 70-character field name (70 letters a). -/
def exLongA : FieldName := List.replicate 70 'a'

/-- Another 70-character field name sharing the same 64-character
truncation with `exLongA`. -/
def exLongB : FieldName := List.replicate 69 'a' ++ ['b']

end GdbWriter

namespace SnapPoints

/-- A geometry as the snapping script can encounter one: a point with
coordinates, an empty geometry, a missing (null) geometry, or some
non-point geometry. -/
inductive Geom where
  | point : Int → Int → Geom
  | emptyGeom : Geom
  | missing : Geom
  | nonPoint : Geom
deriving DecidableEq, Repr

/-- Translation of `is_valid_point` (lines 40–50): only a non-null,
non-empty Point geometry is valid. -/
def is_valid_point : Geom → Bool
  | .missing => false
  | .emptyGeom => false
  | .nonPoint => false
  | .point _ _ => true

/-- One input row of the snapping script: attribute payload, the
`Bldg_Code` cell after `astype("string")` (`none` models pd.NA), the
geometry, and the `lat`/`lng` cells. -/
structure Row (A : Type) where
  attrs : A
  code : Option (List Char)
  geom : Geom
  lat : Value
  lng : Value
deriving DecidableEq, Repr

variable {A : Type}

/-- The normalised building code of a row (line 69):
`astype("string").str.strip()`, missing codes stay missing. -/
def normCode (r : Row A) : Option (List Char) := r.code.map stripChars

/-- The snap target of a building code (lines 74–88): the coordinates
of the first row of the group whose geometry is a valid point, `none`
when no row of the group has one. -/
def targetFor (rows : List (Row A)) (c : List Char) : Option (Int × Int) :=
  (rows.find? (fun r => normCode r = some c ∧ is_valid_point r.geom)).bind
    (fun r =>
      match r.geom with
      | .point x y => some (x, y)
      | _ => none)

/-- One row after the snap update (lines 92–106): a row whose
non-blank, non-missing code has a target gets the target point as its
geometry and as its `lng`/`lat`; every other row is unchanged.  Blank
codes are skipped when targets are built, so they never snap. -/
def snapRow (rows : List (Row A)) (r : Row A) : Row A :=
  match normCode r with
  | none => r
  | some c =>
    if c = [] then r
    else
      match targetFor rows c with
      | some t =>
        { r with geom := .point t.1 t.2, lng := .vInt t.1, lat := .vInt t.2 }
      | none => r

/-- The final coercion of the `lat`/`lng` columns (lines 110–111):
`pd.to_numeric(..., errors="coerce")` cell by cell. -/
def toNumericValue (v : Value) : Value :=
  match pyToNumeric v with
  | some d => .vDec d.1 d.2
  | none => .vNone

/-- The whole snap-to-shared-location transform: update every row
against the targets of the original table, then coerce `lat`/`lng`;
no row is ever added or removed. -/
def snapAll (rows : List (Row A)) : List (Row A) :=
  (rows.map (snapRow rows)).map (fun r =>
    { r with lat := toNumericValue r.lat, lng := toNumericValue r.lng })

/-- Example rows: two rows share building code "A" (one valid point,
one null geometry — the first one carries a trailing blank stripped by
normalisation), a third row has its own code. -/
def exRows : List (Row Nat) :=
  [⟨1, some "A ".data, .point 7 40, .vNone, .vNone⟩,
   ⟨2, some "A".data, .missing, .vNone, .vNone⟩,
   ⟨3, some "B".data, .point 1 2, .vInt 2, .vInt 1⟩]

end SnapPoints

end ZGhs

-- ========================= THEOREMS =========================

namespace ZGhs

namespace StormJoin

variable {G A : Type}

theorem dedupPtGo_subset (seen : List Nat) (l : List Cand) :
    dedupPtGo seen l ⊆ l := by
  induction l generalizing seen with
  | nil => simp [dedupPtGo]
  | cons c rest ih =>
    intro x hx
    simp only [dedupPtGo] at hx
    by_cases h : c.pt ∈ seen
    · rw [if_pos h] at hx
      exact List.mem_cons_of_mem _ (ih seen hx)
    · rw [if_neg h] at hx
      rcases List.mem_cons.mp hx with rfl | hx2
      · exact List.mem_cons_self _ _
      · exact List.mem_cons_of_mem _ (ih _ hx2)

theorem dedupPtGo_find_min {l : List Cand} {seen : List Nat} {i : Nat} {c : Cand}
    (hsort : List.Pairwise candLe l) (hseen : i ∉ seen)
    (hfind : (dedupPtGo seen l).find? (fun d => d.pt = i) = some c) :
    c ∈ l ∧ c.pt = i ∧ ∀ d ∈ l, d.pt = i → c.risk ≤ d.risk := by
  induction l generalizing seen with
  | nil => simp [dedupPtGo] at hfind
  | cons x rest ih =>
    rcases List.pairwise_cons.mp hsort with ⟨hx, htail⟩
    simp only [dedupPtGo] at hfind
    by_cases hmem : x.pt ∈ seen
    · rw [if_pos hmem] at hfind
      have hxi : x.pt ≠ i := fun h => hseen (h ▸ hmem)
      obtain ⟨hcmem, hcpt, hmin⟩ := ih htail hseen hfind
      refine ⟨List.mem_cons_of_mem _ hcmem, hcpt, ?_⟩
      intro d hd hdpt
      rcases List.mem_cons.mp hd with rfl | hd2
      · exact absurd hdpt hxi
      · exact hmin d hd2 hdpt
    · rw [if_neg hmem] at hfind
      by_cases hxi : x.pt = i
      · rw [List.find?_cons_of_pos _ (by simp [hxi])] at hfind
        injection hfind with h
        subst h
        refine ⟨List.mem_cons_self _ _, hxi, ?_⟩
        intro d hd hdpt
        rcases List.mem_cons.mp hd with rfl | hd2
        · exact le_refl _
        · rcases hx d hd2 with hlt | ⟨_, hle⟩
          · exact absurd (hxi.trans hdpt.symm) (Nat.ne_of_lt hlt)
          · exact hle
      · rw [List.find?_cons_of_neg _ (by simp [hxi])] at hfind
        have hseen2 : i ∉ x.pt :: seen := by
          intro hmem2
          rcases List.mem_cons.mp hmem2 with h | h
          · exact hxi h.symm
          · exact hseen h
        obtain ⟨hcmem, hcpt, hmin⟩ := ih htail hseen2 hfind
        refine ⟨List.mem_cons_of_mem _ hcmem, hcpt, ?_⟩
        intro d hd hdpt
        rcases List.mem_cons.mp hd with rfl | hd2
        · exact absurd hdpt hxi
        · exact hmin d hd2 hdpt

theorem dedupPtGo_find_isSome {l : List Cand} {seen : List Nat} {i : Nat}
    (hseen : i ∉ seen) {d : Cand} (hd : d ∈ l) (hdpt : d.pt = i) :
    ((dedupPtGo seen l).find? (fun c => c.pt = i)).isSome := by
  induction l generalizing seen with
  | nil => simp at hd
  | cons x rest ih =>
    simp only [dedupPtGo]
    by_cases hmem : x.pt ∈ seen
    · rw [if_pos hmem]
      rcases List.mem_cons.mp hd with rfl | hd2
      · exact absurd (hdpt ▸ hmem) hseen
      · exact ih hseen hd2
    · rw [if_neg hmem]
      by_cases hxi : x.pt = i
      · rw [List.find?_cons_of_pos _ (by simp [hxi])]
        simp
      · rw [List.find?_cons_of_neg _ (by simp [hxi])]
        have hseen2 : i ∉ x.pt :: seen := by
          intro hmem2
          rcases List.mem_cons.mp hmem2 with h | h
          · exact hxi h.symm
          · exact hseen h
        rcases List.mem_cons.mp hd with rfl | hd2
        · exact absurd hdpt hxi
        · exact ih hseen2 hd2

theorem dedupPt_find_none {l : List Cand} {i : Nat}
    (h : ∀ d ∈ l, d.pt ≠ i) :
    (dedupPt l).find? (fun c => c.pt = i) = none := by
  apply List.find?_eq_none.mpr
  intro x hx
  simp only [decide_eq_true_eq]
  exact h x (dedupPtGo_subset [] l hx)

theorem mem_ranked_iff {its : G → G → Bool} {buffer : G → Option G}
    {schools : List (School G A)} {storms : List (Storm G)} {c : Cand} :
    c ∈ ranked its buffer schools storms ↔
      ∃ r ∈ joinedRows its buffer schools storms, ∃ t, r.2 = some t ∧
        ∃ d, pyToNumeric t.2.2 = some d ∧
          c = ⟨r.1, t.1, t.2.1, decTrunc d.1 d.2⟩ := by
  simp only [ranked, List.mem_filterMap, Option.bind_eq_some, Option.map_eq_some']
  constructor
  · rintro ⟨r, hr, t, ht, d, hd, hc⟩
    exact ⟨r, hr, t, ht, d, hd, hc.symm⟩
  · rintro ⟨r, hr, t, ht, d, hd, hc⟩
    exact ⟨r, hr, t, ht, d, hd, hc.symm⟩

theorem mem_rawCandsFor_iff {its : G → G → Bool} {buffer : G → Option G}
    {schools : List (School G A)} {storms : List (Storm G)} {i : Nat}
    {t : Option (List Char) × Option (List Char) × Value} :
    t ∈ rawCandsFor its buffer schools storms i ↔
      ∃ r ∈ joinedRows its buffer schools storms, r.1 = i ∧ r.2 = some t := by
  simp only [rawCandsFor, List.mem_filterMap]
  constructor
  · rintro ⟨r, hr, hif⟩
    by_cases h : r.1 = i
    · rw [if_pos h] at hif
      exact ⟨r, hr, h, hif⟩
    · rw [if_neg h] at hif
      exact absurd hif (by simp)
  · rintro ⟨r, hr, hi, ht⟩
    refine ⟨r, hr, ?_⟩
    rw [if_pos hi]
    exact ht

theorem outPoints_getElem? (its : G → G → Bool) (buffer : G → Option G)
    (schools : List (School G A)) (storms : List (Storm G)) (i : Nat) :
    (outPoints its buffer schools storms)[i]? =
      ((filteredSchools schools)[i]?).map (fun s =>
        match (best its buffer schools storms).find? (fun c => c.pt = i) with
        | some c =>
          ⟨s.attrs, s.geom, (c.scenario).getD noRiskLabel,
            (c.category).getD noRiskLabel, c.risk⟩
        | none => ⟨s.attrs, s.geom, noRiskLabel, noRiskLabel, noRiskValue⟩) := by
  simp only [outPoints, ptRows, List.getElem?_map, List.getElem?_enum,
    Option.map_map]
  rfl

/-- Counterexample to C1 as stated: the single candidate of point 0
has a null `Flood_Scenario` cell, category "X" and risk 2; the resolved
record keeps its risk and category but the column-wide `fillna` of
lines 152–157 replaces the null scenario with the default no-risk
label, so the resolved fields are not all the cells of one candidate —
the default text is mixed into a matched candidate's record. -/
theorem stormwater_null_text_counterexample :
    (outPoints exItsN exBuf exSchoolsN exStormsN)[0]? =
      some ⟨10, some 0, noRiskLabel, "X".data, 2⟩ ∧
    candsFor exItsN exBuf exSchoolsN exStormsN 0 =
      [⟨0, none, some "X".data, 2⟩] ∧
    ¬ resolutionAtomicityClaim := by
  refine ⟨by decide, by decide, fun h => ?_⟩
  obtain ⟨c, hc, hsc, _, _, _⟩ := h exItsN exBuf exSchoolsN exStormsN 0
    ⟨10, some 0, noRiskLabel, "X".data, 2⟩ (by decide) (by decide)
  rw [(by decide : candsFor exItsN exBuf exSchoolsN exStormsN 0 =
    [⟨0, none, some "X".data, 2⟩])] at hc
  rw [List.mem_singleton] at hc
  subst hc
  exact Option.noConfusion hsc

/-- C1 amended: when a point has at least one join candidate with a
numeric ranking value, one single candidate of minimal risk determines
the whole resolved record — risk taken from it unchanged, and each
text field taken from its corresponding cell except that a null cell
is replaced by the default no-risk label (the column-wide `fillna`);
no field ever comes from a different candidate. -/
theorem stormwater_min_candidate_with_default_fill
    (its : G → G → Bool) (buffer : G → Option G)
    (schools : List (School G A)) (storms : List (Storm G))
    (i : Nat) (r : OutPoint G A)
    (hr : (outPoints its buffer schools storms)[i]? = some r)
    (hne : candsFor its buffer schools storms i ≠ []) :
    ∃ c ∈ candsFor its buffer schools storms i,
      r.scenario = (c.scenario).getD noRiskLabel ∧
      r.category = (c.category).getD noRiskLabel ∧ r.risk = c.risk ∧
      ∀ d ∈ candsFor its buffer schools storms i, c.risk ≤ d.risk := by
  obtain ⟨c0, hc0⟩ := List.exists_mem_of_ne_nil _ hne
  have hc0f := List.mem_filter.mp hc0
  have hc0r : c0 ∈ ranked its buffer schools storms := hc0f.1
  have hc0pt : c0.pt = i := by simpa using hc0f.2
  have hperm := List.perm_insertionSort candLe (ranked its buffer schools storms)
  have hc0sl : c0 ∈ List.insertionSort candLe (ranked its buffer schools storms) :=
    hperm.mem_iff.mpr hc0r
  have hsome := dedupPtGo_find_isSome (show i ∉ ([] : List Nat) by simp) hc0sl hc0pt
  obtain ⟨c, hc⟩ := Option.isSome_iff_exists.mp hsome
  obtain ⟨hcsl, hcpt, hminall⟩ :=
    dedupPtGo_find_min (List.sorted_insertionSort candLe _) (by simp) hc
  have hcr : c ∈ ranked its buffer schools storms := hperm.mem_iff.mp hcsl
  rw [outPoints_getElem?] at hr
  cases hs : (filteredSchools schools)[i]? with
  | none =>
    rw [hs] at hr
    simp at hr
  | some s =>
    rw [hs] at hr
    simp only [Option.map_some'] at hr
    have hfind : (best its buffer schools storms).find? (fun c2 => c2.pt = i) = some c := hc
    rw [hfind] at hr
    injection hr with hr
    subst hr
    refine ⟨c, List.mem_filter.mpr ⟨hcr, by simp [hcpt]⟩, rfl, rfl, rfl, ?_⟩
    intro d hd
    have hdf := List.mem_filter.mp hd
    have hdsl : d ∈ List.insertionSort candLe (ranked its buffer schools storms) :=
      hperm.mem_iff.mpr hdf.1
    exact hminall d hdsl (by simpa using hdf.2)

/-- Witness for the amended C1, the spec's example: point 0 has
candidates with risks 3, 1 and 4 and non-null text, and resolves to the
whole risk-1 record. -/
theorem stormwater_resolution_witness :
    ((outPoints exIts exBuf exSchools exStorms)[0]? = some exOut0 ∧
      candsFor exIts exBuf exSchools exStorms 0 ≠ []) ∧
    ∃ c ∈ candsFor exIts exBuf exSchools exStorms 0,
      exOut0.scenario = (c.scenario).getD noRiskLabel ∧
      exOut0.category = (c.category).getD noRiskLabel ∧
      exOut0.risk = c.risk ∧
      ∀ d ∈ candsFor exIts exBuf exSchools exStorms 0, c.risk ≤ d.risk :=
  ⟨⟨by decide, by decide⟩,
    stormwater_min_candidate_with_default_fill exIts exBuf exSchools exStorms 0
      exOut0 (by decide) (by decide)⟩

/-- C2: enrichment never changes the feature count — the output has one
feature per (null/empty-geometry-filtered) input feature, and each
output feature keeps its original attributes and geometry, with the
enrichment fields added alongside. -/
theorem stormwater_output_cardinality_and_attrs
    (its : G → G → Bool) (buffer : G → Option G)
    (schools : List (School G A)) (storms : List (Storm G))
    (i : Nat) (s : School G A) (r : OutPoint G A)
    (hs : (filteredSchools schools)[i]? = some s)
    (hr : (outPoints its buffer schools storms)[i]? = some r) :
    (outPoints its buffer schools storms).length =
      (filteredSchools schools).length ∧
    r.attrs = s.attrs ∧ r.geom = s.geom := by
  refine ⟨by simp [outPoints, ptRows], ?_⟩
  rw [outPoints_getElem?, hs] at hr
  simp only [Option.map_some'] at hr
  cases hfind : (best its buffer schools storms).find? (fun c => c.pt = i) with
  | some c =>
    rw [hfind] at hr
    injection hr with hr
    subst hr
    exact ⟨rfl, rfl⟩
  | none =>
    rw [hfind] at hr
    injection hr with hr
    subst hr
    exact ⟨rfl, rfl⟩

/-- Witness for C2 on the example input: four input schools, three
surviving the geometry filter, three output features, attributes and
geometry preserved for point 1. -/
theorem stormwater_cardinality_witness :
    ((filteredSchools (G := Nat) (A := Nat) exSchools)[1]? =
        some ⟨11, some 1⟩ ∧
      (outPoints exIts exBuf exSchools exStorms)[1]? =
        some ⟨11, some 1, noRiskLabel, noRiskLabel, 0⟩) ∧
    ((outPoints exIts exBuf exSchools exStorms).length =
        (filteredSchools exSchools).length ∧
      (⟨11, some 1, noRiskLabel, noRiskLabel, 0⟩ : OutPoint Nat Nat).attrs =
        (⟨11, some 1⟩ : School Nat Nat).attrs ∧
      (⟨11, some 1, noRiskLabel, noRiskLabel, 0⟩ : OutPoint Nat Nat).geom =
        (⟨11, some 1⟩ : School Nat Nat).geom) :=
  ⟨⟨by decide, by decide⟩,
    stormwater_output_cardinality_and_attrs exIts exBuf exSchools exStorms 1
      ⟨11, some 1⟩ ⟨11, some 1, noRiskLabel, noRiskLabel, 0⟩
      (by decide) (by decide)⟩

theorem best_find_none_of_no_pt {its : G → G → Bool} {buffer : G → Option G}
    {schools : List (School G A)} {storms : List (Storm G)} {i : Nat}
    (h : ∀ t ∈ rawCandsFor its buffer schools storms i,
      pyToNumeric t.2.2 = none) :
    (best its buffer schools storms).find? (fun c => c.pt = i) = none := by
  apply dedupPt_find_none
  intro d hd hdi
  have hdr : d ∈ ranked its buffer schools storms :=
    (List.perm_insertionSort candLe _).mem_iff.mp hd
  obtain ⟨r0, hr0, t, ht, dd, hdd, hceq⟩ := mem_ranked_iff.mp hdr
  have hpt : r0.1 = i := by
    have : d.pt = r0.1 := by rw [hceq]
    rw [← this, hdi]
  have htmem : t ∈ rawCandsFor its buffer schools storms i :=
    mem_rawCandsFor_iff.mpr ⟨r0, hr0, hpt, ht⟩
  rw [h t htmem] at hdd
  exact absurd hdd (by simp)

/-- C3: a point with zero join candidates resolves to the declared
default record: the literal no-risk label in both text fields and risk
value 0. -/
theorem stormwater_no_candidates_default
    (its : G → G → Bool) (buffer : G → Option G)
    (schools : List (School G A)) (storms : List (Storm G))
    (i : Nat) (r : OutPoint G A)
    (hr : (outPoints its buffer schools storms)[i]? = some r)
    (hraw : rawCandsFor its buffer schools storms i = []) :
    r.scenario = noRiskLabel ∧ r.category = noRiskLabel ∧
      r.risk = noRiskValue := by
  have hnone : (best its buffer schools storms).find? (fun c => c.pt = i) = none := by
    apply best_find_none_of_no_pt
    intro t ht
    rw [hraw] at ht
    exact absurd ht (by simp)
  rw [outPoints_getElem?] at hr
  cases hs : (filteredSchools schools)[i]? with
  | none =>
    rw [hs] at hr
    simp at hr
  | some s =>
    rw [hs] at hr
    simp only [Option.map_some'] at hr
    rw [hnone] at hr
    injection hr with hr
    subst hr
    exact ⟨rfl, rfl, rfl⟩

/-- Witness for C3: example point 1 intersects no stormwater polygon
and receives the default no-risk record. -/
theorem stormwater_default_witness :
    ((outPoints exIts exBuf exSchools exStorms)[1]? =
        some ⟨11, some 1, noRiskLabel, noRiskLabel, 0⟩ ∧
      rawCandsFor exIts exBuf exSchools exStorms 1 = []) ∧
    ((⟨11, some 1, noRiskLabel, noRiskLabel, 0⟩ : OutPoint Nat Nat).scenario =
        noRiskLabel ∧
      (⟨11, some 1, noRiskLabel, noRiskLabel, 0⟩ : OutPoint Nat Nat).category =
        noRiskLabel ∧
      (⟨11, some 1, noRiskLabel, noRiskLabel, 0⟩ : OutPoint Nat Nat).risk =
        noRiskValue) :=
  ⟨⟨by decide, by decide⟩,
    stormwater_no_candidates_default exIts exBuf exSchools exStorms 1
      ⟨11, some 1, noRiskLabel, noRiskLabel, 0⟩ (by decide) (by decide)⟩

/-- C10: a join candidate whose ranking value fails numeric parsing is
discarded, so a point all of whose candidates have non-numeric ranking
values resolves to the default record exactly as if it had none. -/
theorem stormwater_nonnumeric_risk_default
    (its : G → G → Bool) (buffer : G → Option G)
    (schools : List (School G A)) (storms : List (Storm G))
    (i : Nat) (r : OutPoint G A)
    (hr : (outPoints its buffer schools storms)[i]? = some r)
    (hne : rawCandsFor its buffer schools storms i ≠ [])
    (hall : ∀ t ∈ rawCandsFor its buffer schools storms i,
      pyToNumeric t.2.2 = none) :
    r.scenario = noRiskLabel ∧ r.category = noRiskLabel ∧
      r.risk = noRiskValue := by
  have hnone := best_find_none_of_no_pt hall
  rw [outPoints_getElem?] at hr
  cases hs : (filteredSchools schools)[i]? with
  | none =>
    rw [hs] at hr
    simp at hr
  | some s =>
    rw [hs] at hr
    simp only [Option.map_some'] at hr
    rw [hnone] at hr
    injection hr with hr
    subst hr
    exact ⟨rfl, rfl, rfl⟩

/-- Witness for C10: example point 2 has exactly one raw candidate and
its risk value is the non-numeric string "n/a"; the point resolves to
the default record. -/
theorem stormwater_nonnumeric_witness :
    ((outPoints exIts exBuf exSchools exStorms)[2]? =
        some ⟨12, some 2, noRiskLabel, noRiskLabel, 0⟩ ∧
      rawCandsFor exIts exBuf exSchools exStorms 2 ≠ [] ∧
      ∀ t ∈ rawCandsFor exIts exBuf exSchools exStorms 2,
        pyToNumeric t.2.2 = none) ∧
    ((⟨12, some 2, noRiskLabel, noRiskLabel, 0⟩ : OutPoint Nat Nat).scenario =
        noRiskLabel ∧
      (⟨12, some 2, noRiskLabel, noRiskLabel, 0⟩ : OutPoint Nat Nat).category =
        noRiskLabel ∧
      (⟨12, some 2, noRiskLabel, noRiskLabel, 0⟩ : OutPoint Nat Nat).risk =
        noRiskValue) :=
  ⟨⟨by decide, by decide, by decide⟩,
    stormwater_nonnumeric_risk_default exIts exBuf exSchools exStorms 2
      ⟨12, some 2, noRiskLabel, noRiskLabel, 0⟩ (by decide) (by decide)
      (by decide)⟩

end StormJoin

namespace NearestJoin

theorem subRows_fst {refs : List Pt} {p : Nat × Pt} :
    ∀ r ∈ subRows refs p, r.1 = p.1 := by
  intro r hr
  unfold subRows at hr
  cases hm : minDist p.2 refs with
  | none =>
    rw [hm] at hr
    simp at hr
    rw [hr]
  | some m =>
    rw [hm] at hr
    obtain ⟨q, _, hq⟩ := List.mem_map.mp hr
    rw [← hq]

theorem rowsFor_enumFrom (refs : List Pt) (i : Nat) :
    ∀ (l : List Pt) (n : Nat) (s : Pt), n ≤ i → l[i - n]? = some s →
      ((List.enumFrom n l).flatMap (subRows refs)).filter (fun r => r.1 = i) =
        subRows refs (i, s) := by
  intro l
  induction l with
  | nil =>
    intro n s _ hs
    simp at hs
  | cons a t ih =>
    intro n s hn hs
    rw [List.enumFrom_cons, List.flatMap_cons, List.filter_append]
    by_cases hin : i = n
    · subst hin
      have h0 : i - i = 0 := by omega
      rw [h0] at hs
      rw [List.getElem?_cons_zero] at hs
      injection hs with hs
      subst hs
      have h1 : ((subRows refs (i, a)).filter (fun r => r.1 = i)) =
          subRows refs (i, a) := by
        apply List.filter_eq_self.mpr
        intro r hr
        simp [subRows_fst r hr]
      have h2 : (((List.enumFrom (i + 1) t).flatMap (subRows refs)).filter
          (fun r => r.1 = i)) = [] := by
        apply List.filter_eq_nil.mpr
        intro r hr
        obtain ⟨p, hp, hrp⟩ := List.mem_flatMap.mp hr
        have hfst := subRows_fst r hrp
        have hge := (List.mem_enumFrom hp).1
        simp only [decide_eq_true_eq]
        omega
      rw [h1, h2, List.append_nil]
    · have hlt : n < i := by omega
      have h1 : ((subRows refs (n, a)).filter (fun r => r.1 = i)) = [] := by
        apply List.filter_eq_nil.mpr
        intro r hr
        have hfst := subRows_fst r hr
        simp only [decide_eq_true_eq]
        omega
      have hidx : i - n = (i - (n + 1)) + 1 := by omega
      rw [hidx, List.getElem?_cons_succ] at hs
      rw [h1, List.nil_append]
      exact ih (n + 1) s (by omega) hs

theorem rowsFor_eq (subs refs : List Pt) (i : Nat) (s : Pt)
    (hs : subs[i]? = some s) :
    rowsFor subs refs i = subRows refs (i, s) := by
  unfold rowsFor sjoinNearestRows List.enum
  exact rowsFor_enumFrom refs i subs 0 s (Nat.zero_le i) (by simpa using hs)

theorem int_min?_eq_some_iff {l : List Int} {a : Int} :
    l.min? = some a ↔ a ∈ l ∧ ∀ b ∈ l, a ≤ b := by
  haveI : Std.Antisymm (fun x y : Int => x ≤ y) :=
    ⟨fun h1 h2 => le_antisymm h1 h2⟩
  exact List.min?_eq_some_iff (fun x => le_refl x) (fun x y => min_choice x y)
    (fun x y z => le_min_iff)

/-- Counterexample to C4 as stated: with two reference points exactly
equidistant from the subject, `sjoin_nearest` returns two pairs for that
single subject feature, so the claimed "exactly one pair, even when two
reference features are equidistant" fails. -/
theorem nearest_tie_counterexample :
    sqDist (0, 0) (1, 0) = sqDist (0, 0) (-1, 0) ∧
    (rowsFor exSubs exRefs 0).length = 2 ∧
    ¬ nearestExactlyOneClaim := by
  refine ⟨by decide, by decide, fun h => ?_⟩
  exact absurd (h exSubs exRefs 0 (by decide)) (by decide)

/-- C4 amended: with a non-empty reference layer every subject feature
receives at least one nearest pair; each returned pair carries the
minimum distance to the reference layer; and the number of pairs equals
the number of reference features attaining that minimum (so it is one
exactly when the nearest reference is unique). -/
theorem nearest_join_row_characterization (subs refs : List Pt) (i : Nat)
    (s : Pt) (hs : subs[i]? = some s) (hrefs : refs ≠ []) :
    ∃ m, minDist s refs = some m ∧
      (∀ q ∈ refs, m ≤ sqDist s q) ∧
      (rowsFor subs refs i).length =
        refs.countP (fun q => sqDist s q = m) ∧
      1 ≤ (rowsFor subs refs i).length ∧
      ∀ r ∈ rowsFor subs refs i, ∃ j, r.2 = some (j, m) := by
  have hmapne : refs.map (fun q => sqDist s q) ≠ [] := by
    intro h
    exact hrefs (List.map_eq_nil.mp h)
  cases hm : (refs.map (fun q => sqDist s q)).min? with
  | none => exact absurd (List.min?_eq_none_iff.mp hm) hmapne
  | some m =>
    obtain ⟨hmem, hle⟩ := int_min?_eq_some_iff.mp hm
    obtain ⟨q0, hq0, hq0d⟩ := List.mem_map.mp hmem
    have hrows : rowsFor subs refs i = subRows refs (i, s) :=
      rowsFor_eq subs refs i s hs
    have hsub : subRows refs (i, s) =
        (refs.enum.filter (fun q => sqDist s q.2 = m)).map
          (fun q => (i, some (q.1, sqDist s q.2))) := by
      unfold subRows minDist
      rw [hm]
    have hcount : (rowsFor subs refs i).length =
        refs.countP (fun q => sqDist s q = m) := by
      rw [hrows, hsub, List.length_map, ← List.countP_eq_length_filter]
      conv_rhs => rw [← List.enum_map_snd refs]
      rw [List.countP_map]
      rfl
    refine ⟨m, hm, ?_, hcount, ?_, ?_⟩
    · intro q hq
      exact hle _ (List.mem_map.mpr ⟨q, hq, rfl⟩)
    · rw [hcount]
      have : 0 < refs.countP (fun q => sqDist s q = m) :=
        List.countP_pos.mpr ⟨q0, hq0, by simp [hq0d]⟩
      omega
    · intro r hr
      rw [hrows, hsub] at hr
      obtain ⟨q, hqf, hqr⟩ := List.mem_map.mp hr
      have hqd : sqDist s q.2 = m := by
        have := (List.mem_filter.mp hqf).2
        simpa using this
      refine ⟨q.1, ?_⟩
      rw [← hqr, hqd]

/-- Witness for the amended C4: a subject with a unique nearest
reference receives exactly one pair carrying the minimum distance. -/
theorem nearest_join_witness :
    ([((0 : Int), (0 : Int)), (5, 5)][0]? = some ((0 : Int), (0 : Int)) ∧
      ([((3 : Int), (0 : Int)), (0, 2)] : List Pt) ≠ []) ∧
    ∃ m, minDist (0, 0) [((3 : Int), (0 : Int)), (0, 2)] = some m ∧
      (∀ q ∈ [((3 : Int), (0 : Int)), (0, 2)], m ≤ sqDist (0, 0) q) ∧
      (rowsFor [((0 : Int), (0 : Int)), (5, 5)] [((3 : Int), (0 : Int)), (0, 2)] 0).length =
        List.countP (fun q => sqDist (0, 0) q = m) [((3 : Int), (0 : Int)), (0, 2)] ∧
      1 ≤ (rowsFor [((0 : Int), (0 : Int)), (5, 5)] [((3 : Int), (0 : Int)), (0, 2)] 0).length ∧
      ∀ r ∈ rowsFor [((0 : Int), (0 : Int)), (5, 5)] [((3 : Int), (0 : Int)), (0, 2)] 0,
        ∃ j, r.2 = some (j, m) :=
  ⟨⟨by decide, by decide⟩,
    nearest_join_row_characterization [(0, 0), (5, 5)] [(3, 0), (0, 2)] 0
      (0, 0) (by decide) (by decide)⟩

end NearestJoin

namespace RasterSample

theorem sample_getElem? (r : Raster) (reproject : Int × Int → Int × Int)
    (ptsCrs : Nat) (pts : List (Int × Int)) (i : Nat) (p : Int × Int)
    (hp : (projPoints r reproject ptsCrs pts)[i]? = some p) :
    (sample_raster_at_points r reproject ptsCrs pts)[i]? =
      some (samplePoint r p) := by
  unfold sample_raster_at_points
  rw [List.getElem?_map, hp]
  rfl

theorem samplePoint_no_nodata {r : Raster} {p : Int × Int}
    (h : r.nodata = none) :
    samplePoint r p = some (sampleGenOne r p.1 p.2) := by
  unfold samplePoint
  rw [h]

theorem samplePoint_with_nodata {r : Raster} {p : Int × Int} {nd : Int}
    (h : r.nodata = some nd) :
    samplePoint r p =
      if sampleGenOne r p.1 p.2 = nd then none
      else some (sampleGenOne r p.1 p.2) := by
  unfold samplePoint
  rw [h]

/-- Counterexample to C5 as stated: on a raster with no declared nodata
value, a point outside the raster extent samples to the ordinary number
0 (rasterio fills out-of-extent reads with `nodata or 0`), not to the
missing sentinel the claim requires for out-of-extent points. -/
theorem raster_no_nodata_counterexample :
    sample_raster_at_points exRaster (fun p => p) 0 [(10, 10)] = [some 0] ∧
    ¬ inExtent exRaster 10 10 ∧ exRaster.nodata = none ∧
    ¬ samplerClaim := by
  refine ⟨by decide, by decide, rfl, fun h => ?_⟩
  obtain ⟨_, hiff⟩ := h exRaster (fun p => p) 0 [(10, 10)]
  have hc := (hiff 0 (10, 10) (by decide)).mpr (Or.inr (by decide))
  exact absurd hc (by decide)

/-- C5 amended: the sampler returns one value per point; sampling uses
the reprojected points exactly when the CRSs differ; a returned value is
the missing sentinel precisely when a nodata value is declared and the
raw sample (the containing pixel value in extent, the nodata fill out
of extent) equals it.  In particular an in-extent pixel differing from
the declared nodata is returned as-is, an out-of-extent point is the
sentinel whenever nodata is declared, and with no declared nodata an
out-of-extent point yields the ordinary fill value 0. -/
theorem raster_sampler_characterization (r : Raster)
    (reproject : Int × Int → Int × Int) (ptsCrs : Nat)
    (pts : List (Int × Int)) (i : Nat) (p : Int × Int)
    (hp : (projPoints r reproject ptsCrs pts)[i]? = some p) :
    (sample_raster_at_points r reproject ptsCrs pts).length = pts.length ∧
    (ptsCrs = r.crs → projPoints r reproject ptsCrs pts = pts) ∧
    (ptsCrs ≠ r.crs → projPoints r reproject ptsCrs pts = pts.map reproject) ∧
    ((sample_raster_at_points r reproject ptsCrs pts)[i]? = some none ↔
      ∃ nd, r.nodata = some nd ∧ sampleGenOne r p.1 p.2 = nd) ∧
    (inExtent r p.1 p.2 → r.nodata ≠ some (pixelVal r p.1 p.2) →
      (sample_raster_at_points r reproject ptsCrs pts)[i]? =
        some (some (pixelVal r p.1 p.2))) ∧
    (¬ inExtent r p.1 p.2 → ∀ nd, r.nodata = some nd →
      (sample_raster_at_points r reproject ptsCrs pts)[i]? = some none) ∧
    (¬ inExtent r p.1 p.2 → r.nodata = none →
      (sample_raster_at_points r reproject ptsCrs pts)[i]? = some (some 0)) := by
  have hs := sample_getElem? r reproject ptsCrs pts i p hp
  refine ⟨?_, ?_, ?_, ?_, ?_, ?_, ?_⟩
  · unfold sample_raster_at_points projPoints
    by_cases h : ptsCrs ≠ r.crs
    · rw [if_pos h]
      simp
    · rw [if_neg h]
      simp
  · intro h
    simp [projPoints, h]
  · intro h
    simp [projPoints, h]
  · rw [hs]
    cases hnd : r.nodata with
    | none =>
      rw [samplePoint_no_nodata hnd]
      simp
    | some nd =>
      rw [samplePoint_with_nodata hnd]
      by_cases hv : sampleGenOne r p.1 p.2 = nd
      · rw [if_pos hv]
        simp [hv]
      · rw [if_neg hv]
        simp only [Option.some.injEq]
        constructor
        · intro h
          exact absurd h (by simp)
        · rintro ⟨nd2, hnd2, hv2⟩
          exact absurd (hv2.trans hnd2.symm) hv
  · intro hin hne
    rw [hs]
    have hv : sampleGenOne r p.1 p.2 = pixelVal r p.1 p.2 := by
      unfold sampleGenOne
      rw [if_pos hin]
    cases hnd : r.nodata with
    | none => rw [samplePoint_no_nodata hnd, hv]
    | some nd =>
      rw [samplePoint_with_nodata hnd]
      have hne2 : sampleGenOne r p.1 p.2 ≠ nd := by
        rw [hv]
        intro h
        exact hne (by rw [hnd, h])
      rw [if_neg hne2, hv]
  · intro hout nd hnd
    rw [hs, samplePoint_with_nodata hnd]
    have hv : sampleGenOne r p.1 p.2 = nd := by
      unfold sampleGenOne
      rw [if_neg hout, hnd]
      rfl
    rw [if_pos hv]
  · intro hout hnd
    rw [hs, samplePoint_no_nodata hnd]
    have hv : sampleGenOne r p.1 p.2 = 0 := by
      unfold sampleGenOne
      rw [if_neg hout, hnd]
      rfl
    rw [hv]

/-- Witness for the amended C5: points in a different CRS are
reprojected, the in-extent pixel (2, 9) lands on grid cell (1, 2) with
band value 12, different from the declared nodata 99, and is returned
as an ordinary value. -/
theorem raster_sampler_witness :
    ((projPoints exRaster2 exReproj 5 [(3, 8)])[0]? = some (2, 9)) ∧
    ((sample_raster_at_points exRaster2 exReproj 5 [(3, 8)]).length =
        [((3 : Int), (8 : Int))].length ∧
      (5 = exRaster2.crs → projPoints exRaster2 exReproj 5 [(3, 8)] = [(3, 8)]) ∧
      (5 ≠ exRaster2.crs →
        projPoints exRaster2 exReproj 5 [(3, 8)] = [(3, 8)].map exReproj) ∧
      ((sample_raster_at_points exRaster2 exReproj 5 [(3, 8)])[0]? = some none ↔
        ∃ nd, exRaster2.nodata = some nd ∧ sampleGenOne exRaster2 2 9 = nd) ∧
      (inExtent exRaster2 2 9 → exRaster2.nodata ≠ some (pixelVal exRaster2 2 9) →
        (sample_raster_at_points exRaster2 exReproj 5 [(3, 8)])[0]? =
          some (some (pixelVal exRaster2 2 9))) ∧
      (¬ inExtent exRaster2 2 9 → ∀ nd, exRaster2.nodata = some nd →
        (sample_raster_at_points exRaster2 exReproj 5 [(3, 8)])[0]? = some none) ∧
      (¬ inExtent exRaster2 2 9 → exRaster2.nodata = none →
        (sample_raster_at_points exRaster2 exReproj 5 [(3, 8)])[0]? =
          some (some 0))) :=
  ⟨by decide,
    raster_sampler_characterization exRaster2 exReproj 5 [(3, 8)] 0 (2, 9)
      (by decide)⟩

end RasterSample

namespace GdbWriter

theorem lower_suffix_inj :
    ∀ i < 10, ∀ j < 10, 1 ≤ i → 1 ≤ j →
      lowerName ('_' :: Nat.toDigits 10 i) = lowerName ('_' :: Nat.toDigits 10 j) →
      i = j := by
  decide

theorem suffix_len_one_digit : ∀ i < 10, 1 ≤ i →
    ('_' :: Nat.toDigits 10 i).length = 2 := by
  decide

theorem suffix_len_le : ∀ i < 102, ('_' :: Nat.toDigits 10 i).length ≤ 64 := by
  decide

set_option maxRecDepth 4000 in
theorem lower_suffix_inj_two :
    ∀ i < 100, ∀ j < 100, 10 ≤ i → 10 ≤ j →
      lowerName ('_' :: Nat.toDigits 10 i) = lowerName ('_' :: Nat.toDigits 10 j) →
      i = j := by
  decide

theorem suffix_len_two_digit : ∀ i < 100, 10 ≤ i →
    ('_' :: Nat.toDigits 10 i).length = 3 := by
  decide

set_option maxRecDepth 4000 in
theorem lower_suffix_fst : ∀ i < 102,
    (lowerName ('_' :: Nat.toDigits 10 i))[0]? = some '_' := by
  decide

set_option maxRecDepth 4000 in
theorem lower_suffix_snd_ne : ∀ j < 100, 10 ≤ j →
    ¬ (lowerName ('_' :: Nat.toDigits 10 j))[1]? = some '_' := by
  decide

theorem lower_candName (base : FieldName) (i : Nat) :
    lowerName (candName base i) =
      (lowerName base).take (64 - ('_' :: Nat.toDigits 10 i).length) ++
        lowerName ('_' :: Nat.toDigits 10 i) := by
  unfold candName lowerName
  rw [List.map_append, List.map_take]

theorem cross_digit_absurd (base : FieldName) {i j : Nat}
    (hi1 : 1 ≤ i) (hi9 : i ≤ 9) (hj10 : 10 ≤ j) (hj99 : j ≤ 99) :
    lowerName (candName base i) ≠ lowerName (candName base j) := by
  intro h
  rw [lower_candName, lower_candName,
    suffix_len_one_digit i (by omega) hi1,
    suffix_len_two_digit j (by omega) hj10] at h
  have h2 : List.take 62 (lowerName base) ++ lowerName ('_' :: Nat.toDigits 10 i) =
      List.take 61 (lowerName base) ++ lowerName ('_' :: Nat.toDigits 10 j) := h
  have hsi : (lowerName ('_' :: Nat.toDigits 10 i)).length = 2 := by
    unfold lowerName
    rw [List.length_map]
    exact suffix_len_one_digit i (by omega) hi1
  have hsj : (lowerName ('_' :: Nat.toDigits 10 j)).length = 3 := by
    unfold lowerName
    rw [List.length_map]
    exact suffix_len_two_digit j (by omega) hj10
  have hlen := congrArg List.length h2
  rw [List.length_append, List.length_append, List.length_take, List.length_take,
    hsi, hsj] at hlen
  have hL : 62 ≤ (lowerName base).length := by
    rcases Nat.le_total (lowerName base).length 61 with hc | hc
    · rw [Nat.min_eq_right hc, Nat.min_eq_right (by omega)] at hlen
      omega
    · omega
  have hA : (List.take 62 (lowerName base)).length = 62 := by
    rw [List.length_take]
    exact Nat.min_eq_left (by omega)
  have hB : (List.take 61 (lowerName base)).length = 61 := by
    rw [List.length_take]
    exact Nat.min_eq_left (by omega)
  have hgl : (List.take 62 (lowerName base) ++
      lowerName ('_' :: Nat.toDigits 10 i))[62]? =
      (lowerName ('_' :: Nat.toDigits 10 i))[0]? := by
    rw [List.getElem?_append_right
      (show (List.take 62 (lowerName base)).length ≤ 62 by omega), hA]
  have hgr : (List.take 61 (lowerName base) ++
      lowerName ('_' :: Nat.toDigits 10 j))[62]? =
      (lowerName ('_' :: Nat.toDigits 10 j))[1]? := by
    rw [List.getElem?_append_right
      (show (List.take 61 (lowerName base)).length ≤ 62 by omega), hB]
  have h62 := congrArg (fun l => l[62]?) h2
  simp only at h62
  rw [hgl, hgr] at h62
  rw [lower_suffix_fst i (by omega)] at h62
  exact lower_suffix_snd_ne j (by omega) hj10 h62.symm

theorem lower_candName_inj (base : FieldName) :
    ∀ i, 1 ≤ i → i ≤ 99 → ∀ j, 1 ≤ j → j ≤ 99 →
      lowerName (candName base i) = lowerName (candName base j) → i = j := by
  intro i hi1 hi99 j hj1 hj99 h
  rcases Nat.lt_or_ge i 10 with hi | hi <;> rcases Nat.lt_or_ge j 10 with hj | hj
  · rw [lower_candName, lower_candName,
      suffix_len_one_digit i hi hi1, suffix_len_one_digit j hj hj1] at h
    exact lower_suffix_inj i hi j hj hi1 hj1 (List.append_cancel_left h)
  · exact absurd h (cross_digit_absurd base hi1 (by omega) hj hj99)
  · exact absurd h.symm (cross_digit_absurd base hj1 (by omega) hi hi99)
  · rw [lower_candName, lower_candName,
      suffix_len_two_digit i (by omega) hi, suffix_len_two_digit j (by omega) hj] at h
    exact lower_suffix_inj_two i (by omega) j (by omega) hi hj
      (List.append_cancel_left h)

theorem dedupLoop_fresh (seen : List FieldName) (base : FieldName) :
    ∀ (fuel i : Nat) (new : FieldName),
      (lowerName new ∉ seen ∨
        ∃ j, i ≤ j ∧ j < i + fuel ∧ lowerName (candName base j) ∉ seen) →
      lowerName (dedupLoop seen base fuel i new) ∉ seen
  | 0, i, new, h => by
    rcases h with h | ⟨j, hj1, hj2, _⟩
    · exact h
    · omega
  | fuel + 1, i, new, h => by
    by_cases hmem : lowerName new ∈ seen
    · simp only [dedupLoop, if_pos hmem]
      apply dedupLoop_fresh seen base fuel (i + 1) (candName base i)
      rcases h with h | ⟨j, hj1, hj2, hj3⟩
      · exact absurd hmem h
      · by_cases hji : j = i
        · left
          rw [← hji]
          exact hj3
        · right
          exact ⟨j, by omega, by omega, hj3⟩
    · simp only [dedupLoop, if_neg hmem]
      exact hmem

theorem sanitizeOne_fresh (seen : List FieldName) (col : FieldName)
    (hs : seen.length ≤ 97) :
    lowerName (sanitizeOne seen col) ∉ seen := by
  unfold sanitizeOne
  apply dedupLoop_fresh
  by_cases h0 : lowerName (col.take 64) ∈ seen
  · right
    by_contra hall
    push_neg at hall
    have hsub : ((List.range' 1 (seen.length + 1)).map
        (fun j => lowerName (candName (col.take 64) j))) ⊆ seen := by
      intro x hx
      obtain ⟨j, hjmem, hjx⟩ := List.mem_map.mp hx
      have hjr := List.mem_range'_1.mp hjmem
      rw [← hjx]
      exact hall j hjr.1 (by omega)
    have hnodup : ((List.range' 1 (seen.length + 1)).map
        (fun j => lowerName (candName (col.take 64) j))).Nodup := by
      apply List.Nodup.map_on
      · intro x hx y hy hxy
        have hxr := List.mem_range'_1.mp hx
        have hyr := List.mem_range'_1.mp hy
        exact lower_candName_inj (col.take 64) x hxr.1 (by omega) y hyr.1
          (by omega) hxy
      · exact List.nodup_range' 1 (seen.length + 1)
    have hlen := (List.subperm_of_subset hnodup hsub).length_le
    rw [List.length_map, List.length_range'] at hlen
    omega
  · left
    exact h0

theorem candName_length_le (base : FieldName) (i : Nat)
    (h : ('_' :: Nat.toDigits 10 i).length ≤ 64) :
    (candName base i).length ≤ 64 := by
  unfold candName
  rw [List.length_append, List.length_take]
  have := Nat.min_le_left (64 - ('_' :: Nat.toDigits 10 i).length) base.length
  omega

theorem dedupLoop_length_le (seen : List FieldName) (base : FieldName) :
    ∀ (fuel i : Nat) (new : FieldName), new.length ≤ 64 → i + fuel ≤ 101 →
      (dedupLoop seen base fuel i new).length ≤ 64
  | 0, _, _, h, _ => h
  | fuel + 1, i, new, h, hb => by
    by_cases hmem : lowerName new ∈ seen
    · simp only [dedupLoop, if_pos hmem]
      apply dedupLoop_length_le seen base fuel (i + 1)
      · exact candName_length_le base i (suffix_len_le i (by omega))
      · omega
    · simp only [dedupLoop, if_neg hmem]
      exact h

theorem sanitizeOne_length_le (seen : List FieldName) (col : FieldName)
    (hs : seen.length ≤ 97) :
    (sanitizeOne seen col).length ≤ 64 := by
  unfold sanitizeOne
  apply dedupLoop_length_le
  · rw [List.length_take]
    exact Nat.min_le_left 64 col.length
  · omega

theorem sanitizeGo_length (seen : List FieldName) (cols : List FieldName) :
    (sanitizeGo seen cols).length = cols.length := by
  induction cols generalizing seen with
  | nil => rfl
  | cons col rest ih =>
    simp only [sanitizeGo, List.length_cons]
    rw [ih]

theorem sanitizeGo_all_le (seen : List FieldName) (cols : List FieldName)
    (h : seen.length + cols.length ≤ 98) :
    ∀ n ∈ sanitizeGo seen cols, n.length ≤ 64 := by
  induction cols generalizing seen with
  | nil =>
    intro n hn
    simp [sanitizeGo] at hn
  | cons col rest ih =>
    intro n hn
    simp only [sanitizeGo] at hn
    rcases List.mem_cons.mp hn with rfl | hn2
    · exact sanitizeOne_length_le seen col (by simp at h; omega)
    · exact ih (lowerName (sanitizeOne seen col) :: seen) (by simp at h ⊢; omega)
        n hn2

theorem sanitizeGo_fresh_nodup (seen : List FieldName) (cols : List FieldName)
    (h : seen.length + cols.length ≤ 98) :
    ((sanitizeGo seen cols).map lowerName).Nodup ∧
      ∀ n ∈ sanitizeGo seen cols, lowerName n ∉ seen := by
  induction cols generalizing seen with
  | nil =>
    constructor
    · simp [sanitizeGo]
    · intro n hn
      simp [sanitizeGo] at hn
  | cons col rest ih =>
    have hs8 : seen.length ≤ 97 := by
      simp at h
      omega
    have hfresh := sanitizeOne_fresh seen col hs8
    have hrec := ih (lowerName (sanitizeOne seen col) :: seen)
      (by simp at h ⊢; omega)
    constructor
    · simp only [sanitizeGo, List.map_cons]
      rw [List.nodup_cons]
      constructor
      · intro hmem
        obtain ⟨n, hn, heq⟩ := List.mem_map.mp hmem
        have := hrec.2 n hn
        rw [heq] at this
        exact this (List.mem_cons_self _ _)
      · exact hrec.1
    · intro n hn
      simp only [sanitizeGo] at hn
      rcases List.mem_cons.mp hn with rfl | hn2
      · exact hfresh
      · intro hmem
        exact hrec.2 n hn2 (List.mem_cons_of_mem _ hmem)

/-- C6: for workloads of up to 98 distinctly named attribute fields
(`rename_map` is keyed by the original name, so the per-column loop of
the source coincides with this positional model exactly when the input
names are distinct), the sanitiser
keeps one output name per input name in order, every output name is at
most 64 characters (so a 70-character name is truncated), and the
output names are pairwise distinct, even compared case-insensitively —
names that collide after truncation are de-duplicated with numeric
suffixes within the 64-character limit.  (The bound keeps the source
loop's numeric suffixes within two digits.) -/
theorem gdb_field_truncation_dedup (cols : List FieldName)
    (hnd : cols.Nodup) (h : cols.length ≤ 98) :
    (sanitizeCols cols).length = cols.length ∧
    (∀ n ∈ sanitizeCols cols, n.length ≤ 64) ∧
    ((sanitizeCols cols).map lowerName).Nodup ∧
    (sanitizeCols cols).Nodup := by
  unfold sanitizeCols
  refine ⟨sanitizeGo_length [] cols, sanitizeGo_all_le [] cols (by simpa), ?_, ?_⟩
  · exact (sanitizeGo_fresh_nodup [] cols (by simpa)).1
  · exact List.Nodup.of_map lowerName (sanitizeGo_fresh_nodup [] cols (by simpa)).1

/-- Witness for C6: two 70-character names that truncate to the same
64-character prefix come out as two distinct names of at most 64
characters. -/
theorem gdb_field_truncation_witness :
    (exLongA.length = 70 ∧ exLongB.length = 70 ∧
      exLongA.take 64 = exLongB.take 64 ∧ exLongA ≠ exLongB ∧
      ([exLongA, exLongB] : List FieldName).length ≤ 98) ∧
    ((sanitizeCols [exLongA, exLongB]).length =
        ([exLongA, exLongB] : List FieldName).length ∧
      (∀ n ∈ sanitizeCols [exLongA, exLongB], n.length ≤ 64) ∧
      ((sanitizeCols [exLongA, exLongB]).map lowerName).Nodup ∧
      (sanitizeCols [exLongA, exLongB]).Nodup) :=
  ⟨⟨by decide, by decide, by decide, by decide, by decide⟩,
    gdb_field_truncation_dedup [exLongA, exLongB] (by decide) (by decide)⟩

end GdbWriter

namespace GdbWriter

theorem renameOne_length (res target : FieldName) (cols : List FieldName) :
    (renameOne res target cols).length = cols.length := by
  unfold renameOne
  cases (cols.filter (fun c => lowerName c = res)).getLast? with
  | none => rfl
  | some orig => exact List.length_map cols _

theorem filter_lower_eq_single {cols : List FieldName} {c res : FieldName}
    (hnodup : (cols.map lowerName).Nodup) (hmem : c ∈ cols)
    (hc : lowerName c = res) :
    cols.filter (fun d => lowerName d = res) = [c] := by
  induction cols with
  | nil => simp at hmem
  | cons a t ih =>
    rw [List.map_cons, List.nodup_cons] at hnodup
    obtain ⟨hn1, hn2⟩ := hnodup
    rcases List.mem_cons.mp hmem with rfl | hmemt
    · rw [List.filter_cons_of_pos (by simp [hc])]
      have hrest : t.filter (fun d => lowerName d = res) = [] := by
        apply List.filter_eq_nil.mpr
        intro d hd
        simp only [decide_eq_true_eq]
        intro hdres
        exact hn1 (List.mem_map.mpr ⟨d, hd, by rw [hdres, hc]⟩)
      rw [hrest]
    · have ha : lowerName a ≠ res := by
        intro h
        exact hn1 (List.mem_map.mpr ⟨c, hmemt, by rw [hc, h]⟩)
      rw [List.filter_cons_of_neg (by simp [ha])]
      exact ih hn2 hmemt

theorem renameOne_of_single {cols : List FieldName} {c res : FieldName}
    (target : FieldName)
    (hfilter : cols.filter (fun d => lowerName d = res) = [c]) :
    renameOne res target cols = cols.map (fun d => if d = c then target else d) := by
  unfold renameOne
  rw [hfilter]
  rfl

theorem mem_renameOne_of_lower_ne {cols : List FieldName} {d res : FieldName}
    (target : FieldName) (hd : d ∈ cols) (hne : lowerName d ≠ res) :
    d ∈ renameOne res target cols := by
  unfold renameOne
  cases hl : (cols.filter (fun x => lowerName x = res)).getLast? with
  | none => exact hd
  | some orig =>
    have horig : lowerName orig = res := by
      have hm := List.mem_of_mem_getLast? (by rw [hl]; exact rfl)
      simpa using (List.mem_filter.mp hm).2
    have hdo : d ≠ orig := fun h => hne (h ▸ horig)
    exact List.mem_map.mpr ⟨d, hd, by rw [if_neg hdo]⟩

theorem mem_of_mem_renameOne {cols : List FieldName} {x res target : FieldName}
    (h : x ∈ renameOne res target cols) : x ∈ cols ∨ x = target := by
  unfold renameOne at h
  cases hl : (cols.filter (fun c => lowerName c = res)).getLast? with
  | none =>
    rw [hl] at h
    exact Or.inl h
  | some orig =>
    rw [hl] at h
    obtain ⟨d, hd, heq⟩ := List.mem_map.mp h
    by_cases hdo : d = orig
    · rw [if_pos hdo] at heq
      exact Or.inr heq.symm
    · rw [if_neg hdo] at heq
      exact Or.inl (heq ▸ hd)

/-- Counterexample to C7 as stated: the column `fid` is renamed to
`src_fid`, which is not of the form `fid` followed by a suffix — the
writer decorates reserved names with a fixed prefix, not a fixed
suffix. -/
theorem gdb_reserved_rename_counterexample :
    renameReserved [fidName] = [srcFidName] ∧
    ¬ ∃ s : List Char, srcFidName = fidName ++ s := by
  refine ⟨by decide, ?_⟩
  rintro ⟨s, hs⟩
  have h3 : List.take 3 srcFidName = List.take 3 (fidName ++ s) :=
    congrArg (List.take 3) hs
  have h4 : List.take 3 (fidName ++ s) = fidName := rfl
  rw [h4] at h3
  exact absurd h3 (by decide)

/-- C7 amended: a field whose name matches the reserved row-id
identifier `fid` or `OBJECTID` case-insensitively is renamed to the
fixed name built by prefixing `src_` to the reserved identifier
(`src_fid`, `src_objectid`); the column count is unchanged and fields
matching neither reserved name are kept as they are. -/
theorem gdb_reserved_rename_fixed_prefix (cols : List FieldName)
    (hnodup : (cols.map lowerName).Nodup) (c : FieldName) (hmem : c ∈ cols) :
    (renameReserved cols).length = cols.length ∧
    (lowerName c = fidName →
      srcFidName ∈ renameReserved cols ∧ c ∉ renameReserved cols ∧
      srcFidName = "src_".data ++ lowerName c) ∧
    (lowerName c = objectidName →
      srcObjectidName ∈ renameReserved cols ∧ c ∉ renameReserved cols ∧
      srcObjectidName = "src_".data ++ lowerName c) ∧
    (∀ d ∈ cols, lowerName d ≠ fidName → lowerName d ≠ objectidName →
      d ∈ renameReserved cols) := by
  refine ⟨?_, ?_, ?_, ?_⟩
  · unfold renameReserved
    rw [renameOne_length, renameOne_length]
  · intro hc
    have hR1 : renameOne fidName srcFidName cols =
        cols.map (fun d => if d = c then srcFidName else d) :=
      renameOne_of_single srcFidName (filter_lower_eq_single hnodup hmem hc)
    have hsrc1 : srcFidName ∈ renameOne fidName srcFidName cols := by
      rw [hR1]
      exact List.mem_map.mpr ⟨c, hmem, by rw [if_pos rfl]⟩
    refine ⟨?_, ?_, ?_⟩
    · exact mem_renameOne_of_lower_ne srcObjectidName hsrc1 (by decide)
    · intro hcR2
      rcases mem_of_mem_renameOne hcR2 with hcR1 | hceq
      · rw [hR1] at hcR1
        obtain ⟨d, hd, heq⟩ := List.mem_map.mp hcR1
        by_cases hdc : d = c
        · rw [if_pos hdc] at heq
          rw [← heq] at hc
          exact absurd hc (by decide)
        · rw [if_neg hdc] at heq
          exact hdc heq
      · rw [hceq] at hc
        exact absurd hc (by decide)
    · rw [hc]
      decide
  · intro hc
    have hcnotfid : lowerName c ≠ fidName := by
      rw [hc]
      decide
    cases hfidfilter : cols.filter (fun d => lowerName d = fidName) with
    | nil =>
      have hR1 : renameOne fidName srcFidName cols = cols := by
        unfold renameOne
        rw [hfidfilter]
        rfl
      have hR2 : renameReserved cols =
          cols.map (fun d => if d = c then srcObjectidName else d) := by
        unfold renameReserved
        rw [hR1]
        exact renameOne_of_single srcObjectidName
          (filter_lower_eq_single hnodup hmem hc)
      refine ⟨?_, ?_, ?_⟩
      · rw [hR2]
        exact List.mem_map.mpr ⟨c, hmem, by rw [if_pos rfl]⟩
      · intro hcR2
        rw [hR2] at hcR2
        obtain ⟨d, hd, heq⟩ := List.mem_map.mp hcR2
        by_cases hdc : d = c
        · rw [if_pos hdc] at heq
          rw [← heq] at hc
          exact absurd hc (by decide)
        · rw [if_neg hdc] at heq
          exact hdc heq
      · rw [hc]
        decide
    | cons cf rest =>
      have hcfmem : cf ∈ cols.filter (fun d => lowerName d = fidName) := by
        rw [hfidfilter]
        exact List.mem_cons_self _ _
      have hcfcols : cf ∈ cols := (List.mem_filter.mp hcfmem).1
      have hcffid : lowerName cf = fidName := by
        simpa using (List.mem_filter.mp hcfmem).2
      have hsingle1 := filter_lower_eq_single hnodup hcfcols hcffid
      have hR1 : renameOne fidName srcFidName cols =
          cols.map (fun d => if d = cf then srcFidName else d) :=
        renameOne_of_single srcFidName hsingle1
      have hccf : c ≠ cf := by
        intro h
        rw [h, hcffid] at hc
        exact absurd hc.symm (by decide)
      have hsingle2 : (renameOne fidName srcFidName cols).filter
          (fun d => lowerName d = objectidName) = [c] := by
        rw [hR1, List.filter_map]
        have hcongr : cols.filter
            ((fun d => decide (lowerName d = objectidName)) ∘
              (fun d => if d = cf then srcFidName else d)) =
            cols.filter (fun d => lowerName d = objectidName) := by
          apply List.filter_congr
          intro x hx
          by_cases hxcf : x = cf
          · simp only [Function.comp_apply, if_pos hxcf]
            have e1 : decide (lowerName srcFidName = objectidName) = false := by
              decide
            have e2 : decide (lowerName x = objectidName) = false := by
              rw [hxcf, hcffid]
              decide
            rw [e1, e2]
          · simp only [Function.comp_apply, if_neg hxcf]
        rw [hcongr, filter_lower_eq_single hnodup hmem hc]
        rw [List.map_cons, List.map_nil, if_neg hccf]
      have hR2 : renameReserved cols =
          (renameOne fidName srcFidName cols).map
            (fun d => if d = c then srcObjectidName else d) := by
        unfold renameReserved
        exact renameOne_of_single srcObjectidName hsingle2
      have hcR1 : c ∈ renameOne fidName srcFidName cols := by
        rw [hR1]
        exact List.mem_map.mpr ⟨c, hmem, by rw [if_neg hccf]⟩
      refine ⟨?_, ?_, ?_⟩
      · rw [hR2]
        exact List.mem_map.mpr ⟨c, hcR1, by rw [if_pos rfl]⟩
      · intro hcR2
        rw [hR2] at hcR2
        obtain ⟨d, hd, heq⟩ := List.mem_map.mp hcR2
        by_cases hdc : d = c
        · rw [if_pos hdc] at heq
          rw [← heq] at hc
          exact absurd hc (by decide)
        · rw [if_neg hdc] at heq
          exact hdc heq
      · rw [hc]
        decide
  · intro d hd hdfid hdobj
    exact mem_renameOne_of_lower_ne srcObjectidName
      (mem_renameOne_of_lower_ne srcFidName hd hdfid) hdobj

/-- Witness for the amended C7: a table with columns `FID`, `name` and
`OBJECTID` keeps its column count, renames `FID` to `src_fid` and
`OBJECTID` to `src_objectid`, and keeps `name`. -/
theorem gdb_reserved_rename_witness :
    (((["FID".data, "name".data, "OBJECTID".data] : List FieldName).map
        lowerName).Nodup ∧
      ("FID".data : FieldName) ∈
        (["FID".data, "name".data, "OBJECTID".data] : List FieldName)) ∧
    ((renameReserved ["FID".data, "name".data, "OBJECTID".data]).length =
        (["FID".data, "name".data, "OBJECTID".data] : List FieldName).length ∧
      (lowerName "FID".data = fidName →
        srcFidName ∈ renameReserved ["FID".data, "name".data, "OBJECTID".data] ∧
        ("FID".data : FieldName) ∉
          renameReserved ["FID".data, "name".data, "OBJECTID".data] ∧
        srcFidName = "src_".data ++ lowerName "FID".data) ∧
      (lowerName "FID".data = objectidName →
        srcObjectidName ∈
          renameReserved ["FID".data, "name".data, "OBJECTID".data] ∧
        ("FID".data : FieldName) ∉
          renameReserved ["FID".data, "name".data, "OBJECTID".data] ∧
        srcObjectidName = "src_".data ++ lowerName "FID".data) ∧
      (∀ d ∈ (["FID".data, "name".data, "OBJECTID".data] : List FieldName),
        lowerName d ≠ fidName → lowerName d ≠ objectidName →
        d ∈ renameReserved ["FID".data, "name".data, "OBJECTID".data])) :=
  ⟨⟨by decide, by decide⟩,
    gdb_reserved_rename_fixed_prefix ["FID".data, "name".data, "OBJECTID".data]
      (by decide) "FID".data (by decide)⟩

end GdbWriter

namespace GdbWriter

theorem castValue_typeOk {t : OgrType} {v w : Value}
    (h : castValue t v = .ok w) : typeOk t w := by
  cases t with
  | int64 =>
    unfold castValue at h
    cases hp : pyIntCast v with
    | some n =>
      rw [hp] at h
      injection h with h
      rw [← h]
      trivial
    | none =>
      rw [hp] at h
      exact absurd h (by simp)
  | real =>
    unfold castValue at h
    cases hp : pyFloatCast v with
    | some d =>
      rw [hp] at h
      injection h with h
      rw [← h]
      trivial
    | none =>
      rw [hp] at h
      exact absurd h (by simp)
  | text =>
    unfold castValue at h
    injection h with h
    rw [← h]
    trivial

/-- C8: the attribute write never aborts — it emits exactly one output
record per input row; within a row, a cell whose value is missing or
whose coercion to the declared field type fails is written as null,
every other cell of the row is written independently of that failure,
and a successfully written cell holds a value of the declared type. -/
theorem gdb_write_coercion_never_fatal (types : List OgrType)
    (rows : List (List Value)) (i j : Nat) (row : List Value)
    (t : OgrType) (v : Value)
    (hrow : rows[i]? = some row) (ht : types[j]? = some t)
    (hv : row[j]? = some v) :
    (writeTable types rows).length = rows.length ∧
    (writeTable types rows)[i]? = some (writeRow types row) ∧
    ((writeRow types row)[j]? = some none ↔
      v.isNA = true ∨ castValue t v = .error ()) ∧
    (∀ w, (writeRow types row)[j]? = some (some w) →
      castValue t v = .ok w ∧ typeOk t w) := by
  have hcell : (writeRow types row)[j]? = some (writeCell t v) := by
    unfold writeRow
    rw [List.getElem?_zipWith, ht, hv]
  refine ⟨by simp [writeTable], ?_, ?_, ?_⟩
  · unfold writeTable
    rw [List.getElem?_map, hrow]
    rfl
  · rw [hcell]
    simp only [Option.some.injEq]
    unfold writeCell
    by_cases hna : v.isNA
    · rw [if_pos hna]
      simp [hna]
    · rw [if_neg hna]
      cases hc : castValue t v with
      | ok w =>
        constructor
        · intro h
          exact Option.noConfusion h
        · intro h
          rcases h with h | h
          · exact absurd h hna
          · exact Except.noConfusion h
      | error e =>
        cases e
        exact ⟨fun _ => Or.inr rfl, fun _ => rfl⟩
  · intro w hw
    rw [hcell] at hw
    injection hw with hw
    unfold writeCell at hw
    by_cases hna : v.isNA
    · rw [if_pos hna] at hw
      exact Option.noConfusion hw
    · rw [if_neg hna] at hw
      cases hc : castValue t v with
      | ok w2 =>
        rw [hc] at hw
        injection hw with hw
        rw [← hw]
        exact ⟨rfl, castValue_typeOk hc⟩
      | error e =>
        rw [hc] at hw
        exact Option.noConfusion hw

/-- Witness for C8: a three-column row whose first cell is the string
"abc" in an integer field — the coercion fails, that cell is written as
null, while the row itself and the other cells are written. -/
theorem gdb_write_coercion_witness :
    (([[Value.vStr "abc".data, Value.vInt 3, Value.vInt 7]] :
        List (List Value))[0]? =
        some [Value.vStr "abc".data, Value.vInt 3, Value.vInt 7] ∧
      ([OgrType.int64, OgrType.real, OgrType.text] : List OgrType)[0]? =
        some OgrType.int64 ∧
      ([Value.vStr "abc".data, Value.vInt 3, Value.vInt 7] :
        List Value)[0]? = some (Value.vStr "abc".data)) ∧
    ((writeTable [OgrType.int64, OgrType.real, OgrType.text]
        [[Value.vStr "abc".data, Value.vInt 3, Value.vInt 7]]).length =
        ([[Value.vStr "abc".data, Value.vInt 3, Value.vInt 7]] :
          List (List Value)).length ∧
      (writeTable [OgrType.int64, OgrType.real, OgrType.text]
        [[Value.vStr "abc".data, Value.vInt 3, Value.vInt 7]])[0]? =
        some (writeRow [OgrType.int64, OgrType.real, OgrType.text]
          [Value.vStr "abc".data, Value.vInt 3, Value.vInt 7]) ∧
      ((writeRow [OgrType.int64, OgrType.real, OgrType.text]
          [Value.vStr "abc".data, Value.vInt 3, Value.vInt 7])[0]? =
          some none ↔
        (Value.vStr "abc".data).isNA = true ∨
          castValue OgrType.int64 (Value.vStr "abc".data) = .error ()) ∧
      (∀ w, (writeRow [OgrType.int64, OgrType.real, OgrType.text]
          [Value.vStr "abc".data, Value.vInt 3, Value.vInt 7])[0]? =
          some (some w) →
        castValue OgrType.int64 (Value.vStr "abc".data) = .ok w ∧
          typeOk OgrType.int64 w)) :=
  ⟨⟨by decide, by decide, by decide⟩,
    gdb_write_coercion_never_fatal [OgrType.int64, OgrType.real, OgrType.text]
      [[Value.vStr "abc".data, Value.vInt 3, Value.vInt 7]] 0 0
      [Value.vStr "abc".data, Value.vInt 3, Value.vInt 7]
      OgrType.int64 (Value.vStr "abc".data)
      (by decide) (by decide) (by decide)⟩

end GdbWriter

namespace SnapPoints

variable {A : Type}

theorem find?_eq_of_first {α : Type} (p : α → Bool) :
    ∀ (l : List α) (i : Nat) (a : α), l[i]? = some a → p a = true →
      (∀ k b, k < i → l[k]? = some b → p b = false) →
      l.find? p = some a := by
  intro l
  induction l with
  | nil =>
    intro i a ha
    simp at ha
  | cons x t ih =>
    intro i a ha hp hbefore
    cases i with
    | zero =>
      rw [List.getElem?_cons_zero] at ha
      injection ha with ha
      subst ha
      exact List.find?_cons_of_pos t hp
    | succ k =>
      have hx : p x = false := hbefore 0 x (Nat.zero_lt_succ k) (by simp)
      rw [List.getElem?_cons_succ] at ha
      rw [List.find?_cons_of_neg t (by rw [hx]; exact Bool.false_ne_true)]
      refine ih k a ha hp ?_
      intro k2 b hk2 hb
      exact hbefore (k2 + 1) b (by omega) (by rw [List.getElem?_cons_succ]; exact hb)

/-- C9: when two rows share a (non-blank) building code, the earlier
one holding a valid point and the other a null geometry, and no earlier
row of the group has a valid point, the transform leaves the row count
unchanged and makes both rows report the valid row's original
coordinates as geometry and as their lat/lng pair, with their other
attributes untouched. -/
theorem snap_shared_location (rows : List (Row A)) (i j : Nat)
    (ri rj : Row A) (c : List Char) (x y : Int)
    (hri : rows[i]? = some ri) (hrj : rows[j]? = some rj)
    (hci : normCode ri = some c) (hcj : normCode rj = some c)
    (hcne : c ≠ [])
    (hgi : ri.geom = .point x y) (hgj : rj.geom = .missing)
    (hfirst : ∀ k r2, k < i → rows[k]? = some r2 → normCode r2 = some c →
      is_valid_point r2.geom = false) :
    (snapAll rows).length = rows.length ∧
    ∀ ri2 rj2, (snapAll rows)[i]? = some ri2 → (snapAll rows)[j]? = some rj2 →
      ri2.geom = .point x y ∧ rj2.geom = .point x y ∧
      ri2.lat = .vDec y 0 ∧ rj2.lat = .vDec y 0 ∧
      ri2.lng = .vDec x 0 ∧ rj2.lng = .vDec x 0 ∧
      ri2.attrs = ri.attrs ∧ rj2.attrs = rj.attrs := by
  have hfind : rows.find?
      (fun r => normCode r = some c ∧ is_valid_point r.geom) = some ri := by
    apply find?_eq_of_first _ rows i ri hri
    · simp [hci, hgi, is_valid_point]
    · intro k b hk hb
      by_cases hbc : normCode b = some c
      · simp [hbc, hfirst k b hk hb hbc]
      · simp [hbc]
  have htarget : targetFor rows c = some (x, y) := by
    unfold targetFor
    rw [hfind]
    simp [hgi]
  have hsnapi : snapRow rows ri =
      { ri with geom := .point x y, lng := .vInt x, lat := .vInt y } := by
    have hstep : snapRow rows ri =
        (if c = [] then ri else
          match targetFor rows c with
          | some t =>
            { ri with geom := .point t.1 t.2, lng := .vInt t.1, lat := .vInt t.2 }
          | none => ri) := by
      unfold snapRow
      rw [hci]
    rw [hstep, if_neg hcne, htarget]
  have hsnapj : snapRow rows rj =
      { rj with geom := .point x y, lng := .vInt x, lat := .vInt y } := by
    have hstep : snapRow rows rj =
        (if c = [] then rj else
          match targetFor rows c with
          | some t =>
            { rj with geom := .point t.1 t.2, lng := .vInt t.1, lat := .vInt t.2 }
          | none => rj) := by
      unfold snapRow
      rw [hcj]
    rw [hstep, if_neg hcne, htarget]
  constructor
  · simp [snapAll]
  · intro ri2 rj2 h1 h2
    have hgi2 : (snapAll rows)[i]? = some
        { ri with geom := .point x y, lng := .vDec x 0, lat := .vDec y 0 } := by
      unfold snapAll
      rw [List.getElem?_map, List.getElem?_map, hri]
      simp only [Option.map_some']
      rw [hsnapi]
      rfl
    have hgj2 : (snapAll rows)[j]? = some
        { rj with geom := .point x y, lng := .vDec x 0, lat := .vDec y 0 } := by
      unfold snapAll
      rw [List.getElem?_map, List.getElem?_map, hrj]
      simp only [Option.map_some']
      rw [hsnapj]
      rfl
    rw [hgi2] at h1
    rw [hgj2] at h2
    injection h1 with h1
    injection h2 with h2
    subst h1
    subst h2
    exact ⟨rfl, rfl, rfl, rfl, rfl, rfl, rfl, rfl⟩

/-- Witness for C9 on the spec's three-point scenario: rows 0 and 1
share code "A" (after stripping), row 0 is a valid point at (7, 40) and
row 1 has a null geometry; after the transform both report geometry
(7, 40) and lat/lng (40, 7), and the row count is still 3. -/
theorem snap_shared_location_witness :
    (exRows[0]? = some ⟨1, some "A ".data, .point 7 40, .vNone, .vNone⟩ ∧
      exRows[1]? = some ⟨2, some "A".data, .missing, .vNone, .vNone⟩ ∧
      normCode (⟨1, some "A ".data, .point 7 40, .vNone, .vNone⟩ : Row Nat) =
        some "A".data ∧
      normCode (⟨2, some "A".data, .missing, .vNone, .vNone⟩ : Row Nat) =
        some "A".data ∧
      ("A".data : List Char) ≠ []) ∧
    ((snapAll exRows).length = exRows.length ∧
      ∀ ri2 rj2, (snapAll exRows)[0]? = some ri2 →
        (snapAll exRows)[1]? = some rj2 →
        ri2.geom = .point 7 40 ∧ rj2.geom = .point 7 40 ∧
        ri2.lat = .vDec 40 0 ∧ rj2.lat = .vDec 40 0 ∧
        ri2.lng = .vDec 7 0 ∧ rj2.lng = .vDec 7 0 ∧
        ri2.attrs =
          (⟨1, some "A ".data, .point 7 40, .vNone, .vNone⟩ : Row Nat).attrs ∧
        rj2.attrs =
          (⟨2, some "A".data, .missing, .vNone, .vNone⟩ : Row Nat).attrs) :=
  ⟨⟨by decide, by decide, by decide, by decide, by decide⟩,
    snap_shared_location exRows 0 1
      ⟨1, some "A ".data, .point 7 40, .vNone, .vNone⟩
      ⟨2, some "A".data, .missing, .vNone, .vNone⟩
      "A".data 7 40 (by decide) (by decide) (by decide) (by decide)
      (by decide) (by decide) (by decide)
      (fun k r2 hk => absurd hk (Nat.not_lt_zero k))⟩

end SnapPoints

end ZGhs
